import Mathlib

/-!
Verification of the writer-app editing engine.

The definitions below are a shallow embedding of the TypeScript source:
`DocumentAST.ts` (tokenizer, sentence builder, position queries) and
`Editor.tsx` (the key-event handler over the editor state).  Text is
modelled as `List Char` with character positions as `Nat` (the source
indexes by UTF-16 code units; all characters involved are single units).
JavaScript numbers that can go negative (selection indices, range deltas)
are modelled as `Int`; `Set<number>` becomes `Finset ℤ`.
-/

/-- Character class of the separator regex `[ ,;.?!\n—()]` shared by
`tokenize` (DocumentAST.ts) and `WORD_BOUNDARY` (Editor.tsx). -/
def isSepChar (c : Char) : Bool :=
  c = ' ' || c = ',' || c = ';' || c = '.' || c = '?' || c = '!' ||
  c = '\n' || c = '—' || c = '(' || c = ')'

/-- The `SENTENCE_END` regex `[.?!]`. -/
def isSentEndChar (c : Char) : Bool :=
  c = '.' || c = '?' || c = '!'

/-- The JavaScript `\s` class, restricted to the whitespace characters
that can occur here (the source only ever produces ASCII whitespace). -/
def isSpaceJS (c : Char) : Bool :=
  c = ' ' || c = '\t' || c = '\n' || c = '\r' ||
  c = Char.ofNat 11 || c = Char.ofNat 12

/-- The regex `[a-zA-Z0-9]` used to decide the spacer when typing into a
committed selection. -/
def isAlnumChar (c : Char) : Bool :=
  ('a' ≤ c && c ≤ 'z') || ('A' ≤ c && c ≤ 'Z') || ('0' ≤ c && c ≤ '9')

inductive TokType where
  | word
  | separator
deriving DecidableEq

structure Token where
  type : TokType
  text : List Char
  charStart : Nat
  charEnd : Nat
deriving DecidableEq

structure Sentence where
  index : Nat
  tokens : List Token
  charStart : Nat
  charEnd : Nat
deriving DecidableEq

structure DocumentAST where
  text : List Char
  sentences : List Sentence
  words : List Token
deriving DecidableEq

/-- Maximal runs of same-class characters, continuing a run of class
`cls` whose characters so far are `cur` (reversed).  This models
`text.split(/([ ,;.?!\n—()]+)/)` with empty parts dropped: the split with
a capturing `+` group yields exactly the maximal runs of separator /
non-separator characters. -/
def runsAux (cls : Bool) (cur : List Char) : List Char → List (List Char)
  | [] => [cur.reverse]
  | c :: rest =>
    if isSepChar c = cls then runsAux cls (c :: cur) rest
    else cur.reverse :: runsAux (isSepChar c) [c] rest

def charRuns : List Char → List (List Char)
  | [] => []
  | c :: rest => runsAux (isSepChar c) [c] rest

/-- Attach token type and char offsets to each run, mirroring the
position bookkeeping loop of `tokenize`. -/
def tokensFrom (pos : Nat) : List (List Char) → List Token
  | [] => []
  | r :: rs =>
    { type := if r.all isSepChar then TokType.separator else TokType.word,
      text := r, charStart := pos, charEnd := pos + r.length } ::
      tokensFrom (pos + r.length) rs

/-- `tokenize` from DocumentAST.ts. -/
def tokenize (text : List Char) : List Token :=
  tokensFrom 0 (charRuns text)

/-- Index of the last occurrence of `c` (JavaScript `lastIndexOf`). -/
def lastIdxOfAux (c : Char) : List Char → Nat → Option Nat → Option Nat
  | [], _, acc => acc
  | x :: xs, i, acc => lastIdxOfAux c xs (i + 1) (if x = c then some i else acc)

def lastIdxOf (c : Char) (l : List Char) : Option Nat :=
  lastIdxOfAux c l 0 none

/-- Where a terminating separator token ends its sentence: just after the
last occurrence of the first-matched `[.?!]` character (the source takes
`lastIndexOf(punctMatch[0])`), falling back to the token end. -/
def tokenSentenceEnd (t : Token) : Nat :=
  match t.text.find? isSentEndChar with
  | some pc =>
    match lastIdxOf pc t.text with
    | some i => t.charStart + i + 1
    | none => t.charEnd
  | none => t.charEnd

/-- The loop of `buildSentences`: `cur` is the token run of the sentence
under construction, `sentStart` its start offset, `idx` the next sentence
index. -/
def buildSentencesAux (textLen : Nat) : List Token → List Token → Nat → Nat → List Sentence
  | [], cur, sentStart, idx =>
    if cur.isEmpty then []
    else [{ index := idx, tokens := cur, charStart := sentStart, charEnd := textLen }]
  | t :: rest, cur, sentStart, idx =>
    let cur' := cur ++ [t]
    let endsWithSentenceEnd := t.text.any isSentEndChar
    let isEndOfText := rest.isEmpty
    let nextSp := !isEndOfText && (t.text.contains ' ' || t.text.contains '\n' ||
      (match t.text.getLast? with | some c => isSpaceJS c | none => false))
    if t.type = TokType.separator ∧ endsWithSentenceEnd = true ∧
        (isEndOfText = true ∨ nextSp = true ∨ 1 < t.text.length) then
      { index := idx, tokens := cur', charStart := sentStart, charEnd := tokenSentenceEnd t } ::
        buildSentencesAux textLen rest [] t.charEnd (idx + 1)
    else
      buildSentencesAux textLen rest cur' sentStart idx

def buildSentences (tokens : List Token) (text : List Char) : List Sentence :=
  buildSentencesAux text.length tokens [] 0 0

/-- `parseDocument` from DocumentAST.ts. -/
def parseDocument (text : List Char) : DocumentAST :=
  let tokens := tokenize text
  { text := text,
    sentences := buildSentences tokens text,
    words := tokens.filter (fun t => t.type = TokType.word) }

/-- JavaScript array indexing `arr[i]` with an integer index
(a negative index yields `undefined`). -/
def listGetInt {α : Type} (l : List α) (i : Int) : Option α :=
  if 0 ≤ i then l.get? i.toNat else none

/-- The scanning loop of `getSentenceAtPosition`; `all` is the full
sentence list (the loop peeks at `ast.sentences[sentence.index + 1]`). -/
def findSentenceLoop (all : List Sentence) (pos : Nat) : List Sentence → Option Sentence
  | [] => none
  | s :: rest =>
    if s.charStart ≤ pos ∧ pos < s.charEnd then some s
    else if s.charEnd ≤ pos ∧
        (match all.get? (s.index + 1) with
         | some s2 => decide (pos < s2.charStart)
         | none => false) = true then some s
    else findSentenceLoop all pos rest

/-- `getSentenceAtPosition` from DocumentAST.ts. -/
def getSentenceAtPosition (ast : DocumentAST) (pos : Nat) : Option Sentence :=
  match findSentenceLoop ast.sentences pos ast.sentences with
  | some s => some s
  | none =>
    if ast.text.length ≤ pos ∧ ast.sentences ≠ [] then ast.sentences.getLast?
    else ast.sentences.head?

/-- `getSentenceIndexAtPosition`: the found sentence's index, defaulting to 0. -/
def getSentenceIndexAtPosition (ast : DocumentAST) (pos : Nat) : Nat :=
  match getSentenceAtPosition ast pos with
  | some s => s.index
  | none => 0

/-- The scanning loop of `getWordIndexAtPosition`. -/
def gwiLoop (pos : Nat) : List Token → Nat → Option Nat
  | [], _ => none
  | w :: rest, i =>
    if w.charStart ≤ pos ∧ pos ≤ w.charEnd then some i
    else if pos < w.charStart then some i
    else gwiLoop pos rest (i + 1)

/-- `getWordIndexAtPosition` from DocumentAST.ts. -/
def getWordIndexAtPosition (ast : DocumentAST) (pos : Nat) : Nat :=
  match gwiLoop pos ast.words 0 with
  | some i => i
  | none => ast.words.length - 1

/-- `getWordSelectionRange`: character span of a word-index selection. -/
def getWordSelectionRange (ast : DocumentAST) (selStart selStop : Int) : Nat × Nat :=
  let minIdx := min selStart selStop
  let maxIdx := max selStart selStop
  match listGetInt ast.words minIdx, listGetInt ast.words maxIdx with
  | some startWord, some endWord => (startWord.charStart, endWord.charEnd)
  | _, _ => (0, 0)

/-- `getSentenceSelectionRange`: character span of a sentence-index selection. -/
def getSentenceSelectionRange (ast : DocumentAST) (selStart selStop : Int) : Nat × Nat :=
  let minIdx := min selStart selStop
  let maxIdx := max selStart selStop
  match listGetInt ast.sentences minIdx, listGetInt ast.sentences maxIdx with
  | some startSentence, some endSentence => (startSentence.charStart, endSentence.charEnd)
  | _, _ => (0, ast.text.length)

/-! ## Editor state (Editor.tsx) -/

inductive Dir where
  | left
  | right
deriving DecidableEq

/-- A word / sentence selection `{start, end, direction}`; the source's
`end` field is called `stop` (`end` is reserved in Lean).  Indices are
JavaScript numbers, modelled as `Int`. -/
structure Sel where
  start : Int
  stop : Int
  direction : Dir
deriving DecidableEq

/-- A ghost range `{start, end}` (the `end` field is called `stop`). -/
structure GhostRange where
  start : Nat
  stop : Nat
deriving DecidableEq

structure HistoryState where
  text : List Char
  cursorPosition : Nat
  ghostRanges : List GhostRange
  committedSentences : Finset ℤ
deriving DecidableEq

structure EditorState where
  text : List Char
  cursorPosition : Nat
  wordSelection : Option Sel
  sentenceSelection : Option Sel
  committedSentences : Finset ℤ
  ghostRanges : List GhostRange
  undoStack : List HistoryState
  redoStack : List HistoryState
  lastEditTime : Nat
deriving DecidableEq

/-- The abstract key event delivered by the virtual-keyboard layer. -/
structure KeyEvent where
  key : String
  shiftKey : Bool
  altKey : Bool
  ctrlKey : Bool
  metaKey : Bool
deriving DecidableEq

/-- `text.slice(a, b)` for non-negative indices. -/
def sliceN (l : List Char) (a b : Nat) : List Char :=
  (l.take b).drop a

/-- `arr.slice(-n)`: the last `n` elements. -/
def jsTakeLast {α : Type} (n : Nat) (l : List α) : List α :=
  l.drop (l.length - n)

/-- The `{text, cursorPosition, ghostRanges, committedSentences}` snapshot
captured by `saveHistory` and by the undo / redo branches. -/
def snapshot (s : EditorState) : HistoryState :=
  { text := s.text, cursorPosition := s.cursorPosition,
    ghostRanges := s.ghostRanges, committedSentences := s.committedSentences }

/-- `BATCH_THRESHOLD` is 500 ms, `MAX_HISTORY` is 100. -/
def saveHistory (force : Bool) (now : Nat) (s : EditorState) : EditorState :=
  let shouldBatch := !force && decide (now - s.lastEditTime < 500)
  let s1 := { s with lastEditTime := now }
  if shouldBatch && !s1.undoStack.isEmpty then s1
  else { s1 with undoStack := jsTakeLast 99 s1.undoStack ++ [snapshot s],
                 redoStack := [] }

/-- `restoreState`: install a history snapshot and clear both selections. -/
def restoreState (h : HistoryState) (s : EditorState) : EditorState :=
  { s with text := h.text, cursorPosition := h.cursorPosition,
           ghostRanges := h.ghostRanges, committedSentences := h.committedSentences,
           wordSelection := none, sentenceSelection := none }

/-- The Cmd+Z branch of `handleKeyDown`. -/
def doUndo (s : EditorState) : EditorState :=
  match s.undoStack.getLast? with
  | none => s
  | some prevState =>
    restoreState prevState
      { s with redoStack := s.redoStack ++ [snapshot s],
               undoStack := s.undoStack.dropLast }

/-- The Cmd+Shift+Z branch of `handleKeyDown`. -/
def doRedo (s : EditorState) : EditorState :=
  match s.redoStack.getLast? with
  | none => s
  | some nextState =>
    restoreState nextState
      { s with undoStack := s.undoStack ++ [snapshot s],
               redoStack := s.redoStack.dropLast }

/-- `adjustRanges` applied to a single range; `none` models the `null`
dropped by the trailing filter. -/
def adjustRange (changePos : Nat) (delta : Int) (r : GhostRange) : Option GhostRange :=
  if 0 < delta then
    if changePos ≤ r.start then
      some { start := r.start + delta.toNat, stop := r.stop + delta.toNat }
    else if changePos < r.stop then
      some { start := r.start, stop := r.stop + delta.toNat }
    else some r
  else
    let delEnd : Int := (changePos : Int) - delta
    if (r.stop : Int) ≤ changePos then some r
    else if delEnd ≤ (r.start : Int) then
      some { start := ((r.start : Int) + delta).toNat, stop := ((r.stop : Int) + delta).toNat }
    else if changePos ≤ r.start ∧ (r.stop : Int) ≤ delEnd then none
    else if (r.start : Int) < changePos ∧ delEnd < (r.stop : Int) then
      some { start := r.start, stop := ((r.stop : Int) + delta).toNat }
    else if r.start < changePos then
      some { start := r.start, stop := changePos }
    else
      some { start := changePos, stop := ((r.stop : Int) + delta).toNat }

/-- `adjustRanges` from Editor.tsx: translate ghost ranges across an
insertion (`delta > 0`) or deletion (`delta < 0`) at `changePos`, dropping
empty results. -/
def adjustRanges (ranges : List GhostRange) (changePos : Nat) (delta : Int) : List GhostRange :=
  (ranges.filterMap (adjustRange changePos delta)).filter (fun r => r.start < r.stop)

/-- `isInGhostRange` from Editor.tsx. -/
def isInGhostRange (pos : Nat) (ranges : List GhostRange) : Bool :=
  ranges.any (fun r => r.start ≤ pos && pos < r.stop)

/-- `charAt`: in-range list access (the positions used are in range). -/
def charAt (text : List Char) (p : Nat) : Char :=
  (text.get? p).getD (Char.ofNat 0)

/-- `findWordBoundary` from Editor.tsx.  The two `while` loops per
direction become `takeWhile`/`dropWhile` over the suffix (rightward) or
the reversed prefix (leftward). -/
def findWordBoundary (pos : Nat) (text : List Char) (dir : Int) : Nat :=
  if 0 < dir then
    let i1 := pos + ((text.drop pos).takeWhile (fun c => !isSepChar c)).length
    let i2 := i1 + ((text.drop i1).takeWhile (fun c => isSepChar c)).length
    min text.length i2
  else
    let r1 := ((text.take pos).reverse).dropWhile (fun c => isSepChar c)
    let r2 := r1.dropWhile (fun c => !isSepChar c)
    min text.length r2.length

/-- Rightward scan of `findSentenceBoundary`: the first index `i` (from
`pos`) with a sentence-end character followed by whitespace or the text
end. -/
def fsbScanRight : List Char → Nat → Option Nat
  | [], _ => none
  | c :: rest, i =>
    if isSentEndChar c = true ∧
        (rest.isEmpty = true ∨
          (match rest.head? with | some d => isSpaceJS d | none => false) = true) then some i
    else fsbScanRight rest (i + 1)

/-- `while (i >= 0 && isSpace(text[i])) i--`, taking and returning `i + 1`. -/
def skipSpacesBack (text : List Char) : Nat → Nat
  | 0 => 0
  | p + 1 => if isSpaceJS (charAt text p) then skipSpacesBack text p else p + 1

/-- Leftward scan of `findSentenceBoundary` (argument is `i + 1`). -/
def fsbScanLeft (text : List Char) : Nat → Nat
  | 0 => 0
  | p + 1 =>
    if isSentEndChar (charAt text p) = true ∧ p + 1 < text.length ∧
        isSpaceJS (charAt text (p + 1)) = true then p + 2
    else fsbScanLeft text p

/-- `findSentenceBoundary` from Editor.tsx. -/
def findSentenceBoundary (pos : Nat) (text : List Char) (dir : Int) : Nat :=
  if 0 < dir then
    match fsbScanRight (text.drop pos) pos with
    | some i => min text.length (i + 2)
    | none => text.length
  else
    let p1 := skipSpacesBack text pos
    let p2 := if 0 < p1 ∧ isSentEndChar (charAt text (p1 - 1)) = true then p1 - 1 else p1
    fsbScanLeft text p2

/-- `while (lineStart > 0 && text[lineStart - 1] !== '\n') lineStart--`. -/
def lineStartAt (text : List Char) : Nat → Nat
  | 0 => 0
  | p + 1 => if charAt text p ≠ '\n' then lineStartAt text p else p + 1

/-- `while (lineEnd < len && text[lineEnd] !== '\n') lineEnd++`. -/
def lineEndAt (text : List Char) (p : Nat) : Nat :=
  p + ((text.drop p).takeWhile (fun c => c ≠ '\n')).length

/-- `moveCursorVertically` from Editor.tsx. -/
def moveCursorVertically (pos : Nat) (text : List Char) (dir : Int) : Nat :=
  let lineStart := lineStartAt text pos
  let lineEnd := lineEndAt text pos
  let column := pos - lineStart
  if dir < 0 then
    if lineStart = 0 then 0
    else
      let prevLineEnd := lineStart - 1
      let prevLineStart := lineStartAt text prevLineEnd
      let prevLineLength := prevLineEnd - prevLineStart
      prevLineStart + min column prevLineLength
  else
    if text.length ≤ lineEnd then text.length
    else
      let nextLineStart := lineEnd + 1
      let nextLineEnd := lineEndAt text nextLineStart
      let nextLineLength := nextLineEnd - nextLineStart
      nextLineStart + min column nextLineLength

/-! ## Selection reducers (the `setWordSelection` / `setSentenceSelection`
updaters in `handleKeyDown`) -/

/-- Shift+Alt+ArrowRight reducer. -/
def wordSelRight (ast : DocumentAST) (cursor : Nat) (prev : Option Sel) : Option Sel :=
  let wordCount := ast.words.length
  match prev with
  | none =>
    let wordIdx := getWordIndexAtPosition ast cursor
    if wordCount - 1 ≤ wordIdx ∧ ast.text.length ≤ cursor then none
    else some { start := (wordIdx : Int), stop := (wordIdx : Int), direction := Dir.right }
  | some prevSel =>
    let newEnd := prevSel.stop + 1
    if prevSel.direction = Dir.left ∧ prevSel.start < newEnd then none
    else if (wordCount : Int) ≤ newEnd then some prevSel
    else some { prevSel with stop := newEnd }

/-- Shift+Alt+ArrowLeft reducer. -/
def wordSelLeft (ast : DocumentAST) (cursor : Nat) (prev : Option Sel) : Option Sel :=
  match prev with
  | none =>
    let wordIdx := getWordIndexAtPosition ast cursor
    if cursor = 0 then none
    else
      let wordIdx' :=
        match ast.words.get? wordIdx with
        | some currentWord =>
          if cursor = currentWord.charStart ∧ 0 < wordIdx then wordIdx - 1 else wordIdx
        | none => wordIdx
      some { start := (wordIdx' : Int), stop := (wordIdx' : Int), direction := Dir.left }
  | some prevSel =>
    let newEnd := prevSel.stop - 1
    if prevSel.direction = Dir.right ∧ newEnd < prevSel.start then none
    else if newEnd < 0 then some prevSel
    else some { prevSel with stop := newEnd }

/-- Cmd+Shift+ArrowRight reducer. -/
def sentSelRight (ast : DocumentAST) (cursor : Nat) (prev : Option Sel) : Option Sel :=
  let sentenceCount := ast.sentences.length
  match prev with
  | none =>
    let sentenceIdx := getSentenceIndexAtPosition ast cursor
    if ast.text.length ≤ cursor then none
    else if sentenceCount - 1 ≤ sentenceIdx ∧
        (match ast.sentences.getLast? with
         | some lastSentence => decide (lastSentence.charEnd ≤ cursor)
         | none => false) = true then none
    else some { start := (sentenceIdx : Int), stop := (sentenceIdx : Int), direction := Dir.right }
  | some prevSel =>
    let newEnd := prevSel.stop + 1
    if prevSel.direction = Dir.left ∧ prevSel.start < newEnd then none
    else if (sentenceCount : Int) ≤ newEnd then some prevSel
    else some { prevSel with stop := newEnd }

/-- Cmd+Shift+ArrowLeft reducer. -/
def sentSelLeft (ast : DocumentAST) (cursor : Nat) (prev : Option Sel) : Option Sel :=
  match prev with
  | none =>
    let sentenceIdx := getSentenceIndexAtPosition ast cursor
    if cursor = 0 then none
    else some { start := (sentenceIdx : Int), stop := (sentenceIdx : Int), direction := Dir.left }
  | some prevSel =>
    let newEnd := prevSel.stop - 1
    if prevSel.direction = Dir.right ∧ newEnd < prevSel.start then none
    else if newEnd < 0 then some prevSel
    else some { prevSel with stop := newEnd }

/-! ## The key-event handler, phase by phase.

`handleKeyDown` is one long function; after the two early-returning
undo / redo branches it is a sequence of independent `if` statements, each
modelled as a phase threading the state.  All phases see the AST parsed
from the text at event entry (`astRef.current`), exactly as the source
reads it once at the top of the handler. -/

/-- `key.toLowerCase()`; character-wise ASCII lowering (all keys involved
are ASCII). -/
def keyToLower (s : String) : String :=
  String.mk (s.data.map Char.toLower)

def undoCond (ev : KeyEvent) : Prop :=
  ev.metaKey = true ∧ ev.shiftKey = false ∧ keyToLower ev.key = "z"

def redoCond (ev : KeyEvent) : Prop :=
  ev.metaKey = true ∧ ev.shiftKey = true ∧ keyToLower ev.key = "z"

instance : DecidablePred undoCond := fun ev => by unfold undoCond; infer_instance

instance : DecidablePred redoCond := fun ev => by unfold redoCond; infer_instance

/-- The arrow-key `else if` chain: selection extension and horizontal
cursor movement.  Conditions are stated key-first; this is the same
boolean as the source's `modifier && modifier && key` tests. -/
def arrowChainPhase (ev : KeyEvent) (ast : DocumentAST) (s : EditorState) : EditorState :=
  if ev.key = "ArrowRight" ∧ ev.shiftKey = true ∧ ev.altKey = true then
    { s with wordSelection := wordSelRight ast s.cursorPosition s.wordSelection }
  else if ev.key = "ArrowLeft" ∧ ev.shiftKey = true ∧ ev.altKey = true then
    { s with wordSelection := wordSelLeft ast s.cursorPosition s.wordSelection }
  else if ev.key = "ArrowRight" ∧ ev.shiftKey = true ∧ ev.metaKey = true then
    { s with sentenceSelection := sentSelRight ast s.cursorPosition s.sentenceSelection }
  else if ev.key = "ArrowLeft" ∧ ev.shiftKey = true ∧ ev.metaKey = true then
    { s with sentenceSelection := sentSelLeft ast s.cursorPosition s.sentenceSelection }
  else if ev.key = "ArrowRight" ∧ ev.metaKey = true then
    { s with wordSelection := none, sentenceSelection := none,
             cursorPosition := findSentenceBoundary s.cursorPosition s.text 1 }
  else if ev.key = "ArrowLeft" ∧ ev.metaKey = true then
    { s with wordSelection := none, sentenceSelection := none,
             cursorPosition := findSentenceBoundary s.cursorPosition s.text (-1) }
  else if ev.key = "ArrowRight" ∧ ev.altKey = true then
    { s with wordSelection := none, sentenceSelection := none,
             cursorPosition := findWordBoundary s.cursorPosition s.text 1 }
  else if ev.key = "ArrowLeft" ∧ ev.altKey = true then
    { s with wordSelection := none, sentenceSelection := none,
             cursorPosition := findWordBoundary s.cursorPosition s.text (-1) }
  else if ev.key = "ArrowRight" then
    { s with wordSelection := none, sentenceSelection := none,
             cursorPosition := min (s.cursorPosition + 1) s.text.length }
  else if ev.key = "ArrowLeft" then
    { s with wordSelection := none, sentenceSelection := none,
             cursorPosition := s.cursorPosition - 1 }
  else s

/-- Ctrl+A / Ctrl+E line-start / line-end navigation. -/
def ctrlLinePhase (ev : KeyEvent) (s : EditorState) : EditorState :=
  if ev.key = "a" ∧ ev.ctrlKey = true then
    { s with wordSelection := none, sentenceSelection := none,
             cursorPosition := lineStartAt s.text s.cursorPosition }
  else if ev.key = "e" ∧ ev.ctrlKey = true then
    { s with wordSelection := none, sentenceSelection := none,
             cursorPosition := lineEndAt s.text s.cursorPosition }
  else s

def escapePhase (ev : KeyEvent) (s : EditorState) : EditorState :=
  if ev.key = "Escape" then
    { s with wordSelection := none, sentenceSelection := none }
  else s

/-- ArrowUp: reorder the selected sentence block up, or move the cursor
up a line when no sentence selection is active.  When a selection index
is out of range the source faults after `saveHistory` already queued its
updates; the model keeps the snapshot and leaves the rest unchanged. -/
def arrowUpPhase (now : Nat) (ev : KeyEvent) (ast : DocumentAST) (s : EditorState) : EditorState :=
  if ev.key = "ArrowUp" then
    match s.sentenceSelection with
    | some selection =>
      let minIdx := min selection.start selection.stop
      let maxIdx := max selection.start selection.stop
      if 0 < minIdx then
        let s1 := saveHistory true now s
        match listGetInt ast.sentences (minIdx - 1), listGetInt ast.sentences minIdx,
              listGetInt ast.sentences maxIdx with
        | some prevSentence, some firstSelected, some lastSelected =>
          let afterSelected := listGetInt ast.sentences (maxIdx + 1)
          let currentText := s1.text
          let prevSentenceText := sliceN currentText prevSentence.charStart prevSentence.charEnd
          let selectedSentencesText := sliceN currentText firstSelected.charStart lastSelected.charEnd
          let sepBetweenPrevAndSelected :=
            let sep := sliceN currentText prevSentence.charEnd firstSelected.charStart
            if sep.isEmpty then [' '] else sep
          let sepAfterSelected :=
            match afterSelected with
            | some a => sliceN currentText lastSelected.charEnd a.charStart
            | none => ([] : List Char)
          let before := sliceN currentText 0 prevSentence.charStart
          let after :=
            match afterSelected with
            | some a => currentText.drop a.charStart
            | none => ([] : List Char)
          let newText := before ++ selectedSentencesText ++ sepBetweenPrevAndSelected ++
            prevSentenceText ++ (if 0 < after.length then sepAfterSelected ++ after else [])
          let newMinIdx := minIdx - 1
          let newMaxIdx := maxIdx - 1
          { s1 with
            text := newText,
            ghostRanges := [],
            sentenceSelection := some { selection with
              start := if selection.direction = Dir.right then newMinIdx else newMaxIdx,
              stop := if selection.direction = Dir.right then newMaxIdx else newMinIdx },
            committedSentences := s1.committedSentences.image (fun idx =>
              if minIdx ≤ idx ∧ idx ≤ maxIdx then idx - 1
              else if idx = minIdx - 1 then maxIdx
              else idx),
            cursorPosition := before.length }
        | _, _, _ => s1
      else s
    | none =>
      { s with wordSelection := none, sentenceSelection := none,
               cursorPosition := moveCursorVertically s.cursorPosition s.text (-1) }
  else s

/-- ArrowDown: reorder the selected sentence block down, or move the
cursor down a line when no sentence selection is active. -/
def arrowDownPhase (now : Nat) (ev : KeyEvent) (ast : DocumentAST) (s : EditorState) : EditorState :=
  if ev.key = "ArrowDown" then
    match s.sentenceSelection with
    | some selection =>
      let minIdx := min selection.start selection.stop
      let maxIdx := max selection.start selection.stop
      if maxIdx < (ast.sentences.length : Int) - 1 then
        let s1 := saveHistory true now s
        match listGetInt ast.sentences minIdx, listGetInt ast.sentences maxIdx,
              listGetInt ast.sentences (maxIdx + 1) with
        | some firstSelected, some lastSelected, some nextSentence =>
          let afterNext := listGetInt ast.sentences (maxIdx + 2)
          let currentText := s1.text
          let selectedSentencesText := sliceN currentText firstSelected.charStart lastSelected.charEnd
          let nextSentenceText := sliceN currentText nextSentence.charStart nextSentence.charEnd
          let sepBetweenSelectedAndNext :=
            let sep := sliceN currentText lastSelected.charEnd nextSentence.charStart
            if sep.isEmpty then [' '] else sep
          let sepAfterNext :=
            match afterNext with
            | some a => sliceN currentText nextSentence.charEnd a.charStart
            | none => ([] : List Char)
          let before := sliceN currentText 0 firstSelected.charStart
          let after :=
            match afterNext with
            | some a => currentText.drop a.charStart
            | none => ([] : List Char)
          let newText := before ++ nextSentenceText ++ sepBetweenSelectedAndNext ++
            selectedSentencesText ++ (if 0 < after.length then sepAfterNext ++ after else [])
          let newMinIdx := minIdx + 1
          let newMaxIdx := maxIdx + 1
          { s1 with
            text := newText,
            ghostRanges := [],
            sentenceSelection := some { selection with
              start := if selection.direction = Dir.right then newMinIdx else newMaxIdx,
              stop := if selection.direction = Dir.right then newMaxIdx else newMinIdx },
            committedSentences := s1.committedSentences.image (fun idx =>
              if minIdx ≤ idx ∧ idx ≤ maxIdx then idx + 1
              else if idx = maxIdx + 1 then minIdx
              else idx),
            cursorPosition := before.length + nextSentenceText.length + sepBetweenSelectedAndNext.length }
        | _, _, _ => s1
      else s
    | none =>
      { s with wordSelection := none, sentenceSelection := none,
               cursorPosition := moveCursorVertically s.cursorPosition s.text 1 }
  else s

/-- The Backspace branch. -/
def backspacePhase (now : Nat) (ev : KeyEvent) (ast : DocumentAST) (s0 : EditorState) : EditorState :=
  let s := saveHistory true now s0
  match s.sentenceSelection with
  | some sel =>
    let range := getSentenceSelectionRange ast sel.start sel.stop
    let minIdx := min sel.start sel.stop
    let maxIdx := max sel.start sel.stop
    let deletedCount := maxIdx - minIdx + 1
    let deleteLength := range.2 - range.1
    { s with
      text := s.text.take range.1 ++ s.text.drop range.2,
      ghostRanges := adjustRanges s.ghostRanges range.1 (-(deleteLength : Int)),
      cursorPosition := range.1,
      committedSentences :=
        (s.committedSentences.filter (fun idx => idx < minIdx ∨ maxIdx < idx)).image
          (fun idx => if idx < minIdx then idx else idx - deletedCount),
      wordSelection := none, sentenceSelection := none }
  | none =>
    match s.wordSelection with
    | some wsel =>
      let range := getWordSelectionRange ast wsel.start wsel.stop
      let deleteLength := range.2 - range.1
      { s with
        text := s.text.take range.1 ++ s.text.drop range.2,
        ghostRanges := adjustRanges s.ghostRanges range.1 (-(deleteLength : Int)),
        cursorPosition := range.1,
        wordSelection := none, sentenceSelection := none }
    | none =>
      if 0 < s.cursorPosition then
        let pos := s.cursorPosition
        if ev.metaKey = true then
          let sentenceStart := findSentenceBoundary pos s.text (-1)
          let deleteLength := pos - sentenceStart
          { s with
            text := s.text.take sentenceStart ++ s.text.drop pos,
            ghostRanges := adjustRanges s.ghostRanges sentenceStart (-(deleteLength : Int)),
            cursorPosition := sentenceStart }
        else if ev.altKey = true then
          let newPos := findWordBoundary pos s.text (-1)
          let deleteLength := pos - newPos
          { s with
            text := s.text.take newPos ++ s.text.drop pos,
            ghostRanges := adjustRanges s.ghostRanges newPos (-(deleteLength : Int)),
            cursorPosition := newPos }
        else
          { s with
            text := s.text.take (pos - 1) ++ s.text.drop pos,
            ghostRanges := adjustRanges s.ghostRanges (pos - 1) (-1),
            cursorPosition := pos - 1 }
      else s

/-- `for (let i = minIdx; i <= maxIdx; i++)` over integers. -/
def intRangeList (a b : Int) : List Int :=
  (List.range (b - a + 1).toNat).map (fun k => a + (k : Int))

/-- The Cmd+Enter commit-toggle branch. -/
def commitTogglePhase (now : Nat) (ast : DocumentAST) (s0 : EditorState) : EditorState :=
  let s := saveHistory true now s0
  match s.sentenceSelection with
  | some sel =>
    let minIdx := min sel.start sel.stop
    let maxIdx := max sel.start sel.stop
    let allCommitted := (intRangeList minIdx maxIdx).all
      (fun i => decide (i ∈ s.committedSentences))
    { s with
      committedSentences := (intRangeList minIdx maxIdx).foldl
        (fun acc i => if allCommitted then acc.erase i else insert i acc)
        s.committedSentences,
      wordSelection := none, sentenceSelection := none }
  | none =>
    let sentenceIdx : Int := getSentenceIndexAtPosition ast s.cursorPosition
    { s with
      committedSentences :=
        if sentenceIdx ∈ s.committedSentences then s.committedSentences.erase sentenceIdx
        else insert sentenceIdx s.committedSentences }

/-- The plain Enter (newline) branch. -/
def newlinePhase (now : Nat) (s0 : EditorState) : EditorState :=
  let s := saveHistory true now s0
  { s with
    wordSelection := none, sentenceSelection := none,
    text := s.text.take s.cursorPosition ++ ['\n'] ++ s.text.drop s.cursorPosition,
    ghostRanges := adjustRanges s.ghostRanges s.cursorPosition 1,
    cursorPosition := s.cursorPosition + 1 }

/-- The selection consulted by the printable-character branch: the
sentence selection's character range if one is active, else the word
selection's, else none. -/
def selectionRange (ast : DocumentAST) (s : EditorState) : Option (Nat × Nat) :=
  match s.sentenceSelection with
  | some sel => some (getSentenceSelectionRange ast sel.start sel.stop)
  | none =>
    match s.wordSelection with
    | some wsel => some (getWordSelectionRange ast wsel.start wsel.stop)
    | none => none

/-- The printable-character branch. -/
def printablePhase (now : Nat) (ev : KeyEvent) (ast : DocumentAST) (s0 : EditorState) : EditorState :=
  let s := saveHistory false now s0
  let keyChars := ev.key.toList
  match selectionRange ast s with
  | some range =>
    let sentenceIdx := getSentenceIndexAtPosition ast range.1
    if (sentenceIdx : Int) ∈ s.committedSentences then
      let insertPos := range.2
      let spacer : List Char := if keyChars.any isAlnumChar then [' '] else []
      let newText := spacer ++ keyChars
      let newGhostRange : GhostRange := { start := range.1, stop := range.2 + spacer.length }
      { s with
        text := s.text.take insertPos ++ newText ++ s.text.drop insertPos,
        ghostRanges := adjustRanges s.ghostRanges insertPos (newText.length : Int) ++ [newGhostRange],
        cursorPosition := insertPos + newText.length,
        wordSelection := none, sentenceSelection := none }
    else
      { s with
        text := s.text.take range.1 ++ keyChars ++ s.text.drop range.2,
        ghostRanges := adjustRanges s.ghostRanges range.1 (1 - ((range.2 : Int) - (range.1 : Int))),
        cursorPosition := range.1 + 1,
        wordSelection := none, sentenceSelection := none }
  | none =>
    { s with
      text := s.text.take s.cursorPosition ++ keyChars ++ s.text.drop s.cursorPosition,
      ghostRanges := adjustRanges s.ghostRanges s.cursorPosition 1,
      cursorPosition := s.cursorPosition + 1 }

/-- The final `if / else if` chain: Backspace, Cmd+Enter, Enter, printable
keys. -/
def editPhase (now : Nat) (ev : KeyEvent) (ast : DocumentAST) (s : EditorState) : EditorState :=
  if ev.key = "Backspace" then backspacePhase now ev ast s
  else if ev.key = "Enter" ∧ ev.metaKey = true then commitTogglePhase now ast s
  else if ev.key = "Enter" then newlinePhase now s
  else if ev.key.length = 1 ∧ ev.ctrlKey = false ∧ ev.metaKey = false then
    printablePhase now ev ast s
  else s

/-- `handleKeyDown` from Editor.tsx: one key event processed against the
current state; `now` is the value `Date.now()` returns during this event. -/
def handleKey (now : Nat) (ev : KeyEvent) (s : EditorState) : EditorState :=
  let ast := parseDocument s.text
  if undoCond ev then doUndo s
  else if redoCond ev then doRedo s
  else
    editPhase now ev ast
      (arrowDownPhase now ev ast
        (arrowUpPhase now ev ast
          (escapePhase ev
            (ctrlLinePhase ev
              (arrowChainPhase ev ast s)))))

/-- A sequence of timed key events applied in order. -/
def applyEvents (es : List (Nat × KeyEvent)) (s : EditorState) : EditorState :=
  es.foldl (fun acc p => handleKey p.1 p.2 acc) s

/-- The `Editor` component's initial state for a given initial text and
committed set (cursor starts at the end of the text). -/
def initialState (text : List Char) (committed : Finset ℤ) : EditorState :=
  { text := text, cursorPosition := text.length,
    wordSelection := none, sentenceSelection := none,
    committedSentences := committed, ghostRanges := [],
    undoStack := [], redoStack := [], lastEditTime := 0 }

/-- A printable single-character key event. -/
def charEv (c : Char) : KeyEvent :=
  { key := String.singleton c, shiftKey := false, altKey := false,
    ctrlKey := false, metaKey := false }

def plainEv (k : String) : KeyEvent :=
  { key := k, shiftKey := false, altKey := false, ctrlKey := false, metaKey := false }

def undoEvent : KeyEvent :=
  { key := "z", shiftKey := false, altKey := false, ctrlKey := false, metaKey := true }

def redoEvent : KeyEvent :=
  { key := "z", shiftKey := true, altKey := false, ctrlKey := false, metaKey := true }

/-! ## Claim-support definitions -/

/-- The set of sentence texts whose (re-parsed) indices lie in the
committed set: committed indices that address a sentence of the parse,
mapped to that sentence's text. -/
def committedTexts (text : List Char) (committed : Finset ℤ) : Finset (List Char) :=
  (committed.filter
      (fun i => (listGetInt (parseDocument text).sentences i).isSome = true)).image
    (fun i =>
      match listGetInt (parseDocument text).sentences i with
      | some sent => sliceN text sent.charStart sent.charEnd
      | none => [])

/-- Contiguity of a token list: starting at `a`, each token spans exactly
its text and starts where the previous one ended, finishing at `b`. -/
def TokChain (a b : Nat) : List Token → Prop
  | [] => a = b
  | t :: ts => t.charStart = a ∧ t.charEnd = a + t.text.length ∧ TokChain t.charEnd b ts

/-- Concatenation of the token texts. -/
def tokensText (ts : List Token) : List Char :=
  (ts.map Token.text).flatten

/-! ## Phase-reduction lemmas: each phase is the identity on key events
it does not handle, letting `handleKey` reduce to the single relevant
branch. -/

theorem arrowChainPhase_skip (ev : KeyEvent) (ast : DocumentAST) (s : EditorState)
    (h1 : ev.key ≠ "ArrowRight") (h2 : ev.key ≠ "ArrowLeft") :
    arrowChainPhase ev ast s = s := by
  unfold arrowChainPhase
  rw [if_neg (fun h => h1 h.1), if_neg (fun h => h2 h.1), if_neg (fun h => h1 h.1),
      if_neg (fun h => h2 h.1), if_neg (fun h => h1 h.1), if_neg (fun h => h2 h.1),
      if_neg (fun h => h1 h.1), if_neg (fun h => h2 h.1), if_neg h1, if_neg h2]

theorem ctrlLinePhase_skip (ev : KeyEvent) (s : EditorState)
    (h1 : ev.key ≠ "a") (h2 : ev.key ≠ "e") :
    ctrlLinePhase ev s = s := by
  unfold ctrlLinePhase
  rw [if_neg (fun h => h1 h.1), if_neg (fun h => h2 h.1)]

theorem escapePhase_skip (ev : KeyEvent) (s : EditorState) (h : ev.key ≠ "Escape") :
    escapePhase ev s = s := by
  unfold escapePhase
  rw [if_neg h]

theorem arrowUpPhase_skip (now : Nat) (ev : KeyEvent) (ast : DocumentAST) (s : EditorState)
    (h : ev.key ≠ "ArrowUp") :
    arrowUpPhase now ev ast s = s := by
  unfold arrowUpPhase
  rw [if_neg h]

theorem arrowDownPhase_skip (now : Nat) (ev : KeyEvent) (ast : DocumentAST) (s : EditorState)
    (h : ev.key ≠ "ArrowDown") :
    arrowDownPhase now ev ast s = s := by
  unfold arrowDownPhase
  rw [if_neg h]

theorem editPhase_skip (now : Nat) (ev : KeyEvent) (ast : DocumentAST) (s : EditorState)
    (h1 : ev.key ≠ "Backspace") (h2 : ev.key ≠ "Enter") (h3 : ev.key.length ≠ 1) :
    editPhase now ev ast s = s := by
  unfold editPhase
  rw [if_neg h1, if_neg (fun h => h2 h.1), if_neg h2, if_neg (fun h => h3 h.1)]

theorem handleKey_not_undo_redo (now : Nat) (ev : KeyEvent) (s : EditorState)
    (h1 : ¬ undoCond ev) (h2 : ¬ redoCond ev) :
    handleKey now ev s =
      editPhase now ev (parseDocument s.text)
        (arrowDownPhase now ev (parseDocument s.text)
          (arrowUpPhase now ev (parseDocument s.text)
            (escapePhase ev
              (ctrlLinePhase ev
                (arrowChainPhase ev (parseDocument s.text) s))))) := by
  simp only [handleKey]
  rw [if_neg h1, if_neg h2]

theorem not_undoCond_of_key (ev : KeyEvent) (h : keyToLower ev.key ≠ "z") : ¬ undoCond ev :=
  fun hc => h hc.2.2

theorem not_redoCond_of_key (ev : KeyEvent) (h : keyToLower ev.key ≠ "z") : ¬ redoCond ev :=
  fun hc => h hc.2.2

theorem handleKey_backspace (now : Nat) (ev : KeyEvent) (s : EditorState)
    (hk : ev.key = "Backspace") :
    handleKey now ev s = backspacePhase now ev (parseDocument s.text) s := by
  rw [handleKey_not_undo_redo now ev s
      (not_undoCond_of_key ev (by rw [hk]; decide))
      (not_redoCond_of_key ev (by rw [hk]; decide)),
    arrowChainPhase_skip _ _ _ (by rw [hk]; decide) (by rw [hk]; decide),
    ctrlLinePhase_skip _ _ (by rw [hk]; decide) (by rw [hk]; decide),
    escapePhase_skip _ _ (by rw [hk]; decide),
    arrowUpPhase_skip _ _ _ _ (by rw [hk]; decide),
    arrowDownPhase_skip _ _ _ _ (by rw [hk]; decide)]
  unfold editPhase
  rw [if_pos hk]

theorem handleKey_enter_meta (now : Nat) (ev : KeyEvent) (s : EditorState)
    (hk : ev.key = "Enter") (hm : ev.metaKey = true) :
    handleKey now ev s = commitTogglePhase now (parseDocument s.text) s := by
  rw [handleKey_not_undo_redo now ev s
      (not_undoCond_of_key ev (by rw [hk]; decide))
      (not_redoCond_of_key ev (by rw [hk]; decide)),
    arrowChainPhase_skip _ _ _ (by rw [hk]; decide) (by rw [hk]; decide),
    ctrlLinePhase_skip _ _ (by rw [hk]; decide) (by rw [hk]; decide),
    escapePhase_skip _ _ (by rw [hk]; decide),
    arrowUpPhase_skip _ _ _ _ (by rw [hk]; decide),
    arrowDownPhase_skip _ _ _ _ (by rw [hk]; decide)]
  unfold editPhase
  rw [if_neg (by rw [hk]; decide), if_pos ⟨hk, hm⟩]

theorem handleKey_enter_plain (now : Nat) (ev : KeyEvent) (s : EditorState)
    (hk : ev.key = "Enter") (hm : ev.metaKey = false) :
    handleKey now ev s = newlinePhase now s := by
  rw [handleKey_not_undo_redo now ev s
      (not_undoCond_of_key ev (by rw [hk]; decide))
      (not_redoCond_of_key ev (by rw [hk]; decide)),
    arrowChainPhase_skip _ _ _ (by rw [hk]; decide) (by rw [hk]; decide),
    ctrlLinePhase_skip _ _ (by rw [hk]; decide) (by rw [hk]; decide),
    escapePhase_skip _ _ (by rw [hk]; decide),
    arrowUpPhase_skip _ _ _ _ (by rw [hk]; decide),
    arrowDownPhase_skip _ _ _ _ (by rw [hk]; decide)]
  unfold editPhase
  rw [if_neg (by rw [hk]; decide), if_neg (fun h => by rw [hm] at h; exact absurd h.2 (by decide)),
    if_pos hk]

theorem handleKey_arrowUp (now : Nat) (ev : KeyEvent) (s : EditorState)
    (hk : ev.key = "ArrowUp") :
    handleKey now ev s = arrowUpPhase now ev (parseDocument s.text) s := by
  rw [handleKey_not_undo_redo now ev s
      (not_undoCond_of_key ev (by rw [hk]; decide))
      (not_redoCond_of_key ev (by rw [hk]; decide)),
    arrowChainPhase_skip _ _ _ (by rw [hk]; decide) (by rw [hk]; decide),
    ctrlLinePhase_skip _ _ (by rw [hk]; decide) (by rw [hk]; decide),
    escapePhase_skip _ _ (by rw [hk]; decide),
    arrowDownPhase_skip _ _ _ _ (by rw [hk]; decide),
    editPhase_skip _ _ _ _ (by rw [hk]; decide) (by rw [hk]; decide) (by rw [hk]; decide)]

theorem handleKey_arrowDown (now : Nat) (ev : KeyEvent) (s : EditorState)
    (hk : ev.key = "ArrowDown") :
    handleKey now ev s = arrowDownPhase now ev (parseDocument s.text)
      (arrowUpPhase now ev (parseDocument s.text) s) := by
  rw [handleKey_not_undo_redo now ev s
      (not_undoCond_of_key ev (by rw [hk]; decide))
      (not_redoCond_of_key ev (by rw [hk]; decide)),
    arrowChainPhase_skip _ _ _ (by rw [hk]; decide) (by rw [hk]; decide),
    ctrlLinePhase_skip _ _ (by rw [hk]; decide) (by rw [hk]; decide),
    escapePhase_skip _ _ (by rw [hk]; decide),
    editPhase_skip _ _ _ _ (by rw [hk]; decide) (by rw [hk]; decide) (by rw [hk]; decide)]

theorem string_singleton_length (c : Char) : (String.singleton c).length = 1 := rfl

theorem singleton_ne_of_length {c : Char} {t : String} (h : t.length ≠ 1) :
    String.singleton c ≠ t :=
  fun hc => h (hc ▸ string_singleton_length c)

theorem handleKey_char (now : Nat) (c : Char) (s : EditorState) :
    handleKey now (charEv c) s = printablePhase now (charEv c) (parseDocument s.text) s := by
  have hne : ∀ t : String, t.length ≠ 1 → (charEv c).key ≠ t :=
    fun t h => singleton_ne_of_length h
  rw [handleKey_not_undo_redo now (charEv c) s (fun h => Bool.noConfusion h.1)
      (fun h => Bool.noConfusion h.1),
    arrowChainPhase_skip _ _ _ (hne _ (by decide)) (hne _ (by decide)),
    ctrlLinePhase,
    if_neg (fun h => Bool.noConfusion h.2), if_neg (fun h => Bool.noConfusion h.2),
    escapePhase_skip _ _ (hne _ (by decide)),
    arrowUpPhase_skip _ _ _ _ (hne _ (by decide)),
    arrowDownPhase_skip _ _ _ _ (hne _ (by decide))]
  unfold editPhase
  rw [if_neg (hne _ (by decide)), if_neg (fun h => absurd h.1 (hne _ (by decide))),
    if_neg (hne _ (by decide)), if_pos ⟨string_singleton_length c, rfl, rfl⟩]

theorem handleKey_undo (now : Nat) (ev : KeyEvent) (s : EditorState) (h : undoCond ev) :
    handleKey now ev s = doUndo s := by
  simp only [handleKey]
  rw [if_pos h]

theorem handleKey_redo (now : Nat) (ev : KeyEvent) (s : EditorState) (h : redoCond ev) :
    handleKey now ev s = doRedo s := by
  simp only [handleKey]
  rw [if_neg (fun hu => Bool.noConfusion (hu.2.1.symm.trans h.2.1)), if_pos h]

/-! ## saveHistory field lemmas -/

theorem saveHistory_text (f : Bool) (now : Nat) (s : EditorState) :
    (saveHistory f now s).text = s.text := by
  simp only [saveHistory]; split <;> rfl

theorem saveHistory_cursorPosition (f : Bool) (now : Nat) (s : EditorState) :
    (saveHistory f now s).cursorPosition = s.cursorPosition := by
  simp only [saveHistory]; split <;> rfl

theorem saveHistory_ghostRanges (f : Bool) (now : Nat) (s : EditorState) :
    (saveHistory f now s).ghostRanges = s.ghostRanges := by
  simp only [saveHistory]; split <;> rfl

theorem saveHistory_committedSentences (f : Bool) (now : Nat) (s : EditorState) :
    (saveHistory f now s).committedSentences = s.committedSentences := by
  simp only [saveHistory]; split <;> rfl

theorem saveHistory_wordSelection (f : Bool) (now : Nat) (s : EditorState) :
    (saveHistory f now s).wordSelection = s.wordSelection := by
  simp only [saveHistory]; split <;> rfl

theorem saveHistory_sentenceSelection (f : Bool) (now : Nat) (s : EditorState) :
    (saveHistory f now s).sentenceSelection = s.sentenceSelection := by
  simp only [saveHistory]; split <;> rfl

theorem saveHistory_snapshot (f : Bool) (now : Nat) (s : EditorState) :
    snapshot (saveHistory f now s) = snapshot s := by
  unfold snapshot
  rw [saveHistory_text, saveHistory_cursorPosition, saveHistory_ghostRanges,
    saveHistory_committedSentences]

theorem saveHistory_force_undoStack (now : Nat) (s : EditorState) :
    (saveHistory true now s).undoStack = jsTakeLast 99 s.undoStack ++ [snapshot s] := rfl

theorem saveHistory_force_redoStack (now : Nat) (s : EditorState) :
    (saveHistory true now s).redoStack = [] := rfl

theorem saveHistory_lastEditTime (f : Bool) (now : Nat) (s : EditorState) :
    (saveHistory f now s).lastEditTime = now := by
  simp only [saveHistory]; split <;> rfl

/-! ## Claim C2 -/

/-- Claim C2 (amended): reorder-up with the first selected sentence at
index 0, reorder-down with the last selected sentence final, undo with an
empty undo stack, and redo with an empty redo stack leave the complete
editor state unchanged (and, being total functions, never throw).
Backspace with no active selection and cursor at 0 leaves the text,
cursor, ghost ranges, committed set and selections unchanged, but — the
source calls `saveHistory(true)` before checking its precondition — it
pushes a snapshot of the current state onto the undo stack, clears the
redo stack, and updates the batching timestamp. -/
theorem c2_failed_precondition_ops (now : Nat) (ev : KeyEvent) (s : EditorState) :
    (ev.key = "Backspace" → s.sentenceSelection = none → s.wordSelection = none →
      s.cursorPosition = 0 →
      (handleKey now ev s).text = s.text ∧
      (handleKey now ev s).cursorPosition = s.cursorPosition ∧
      (handleKey now ev s).ghostRanges = s.ghostRanges ∧
      (handleKey now ev s).committedSentences = s.committedSentences ∧
      (handleKey now ev s).wordSelection = none ∧
      (handleKey now ev s).sentenceSelection = none ∧
      (handleKey now ev s).undoStack = jsTakeLast 99 s.undoStack ++ [snapshot s] ∧
      (handleKey now ev s).redoStack = []) ∧
    (∀ sel : Sel, ev.key = "ArrowUp" → s.sentenceSelection = some sel →
      min sel.start sel.stop = 0 → handleKey now ev s = s) ∧
    (∀ sel : Sel, ev.key = "ArrowDown" → s.sentenceSelection = some sel →
      max sel.start sel.stop = ((parseDocument s.text).sentences.length : Int) - 1 →
      handleKey now ev s = s) ∧
    (undoCond ev → s.undoStack = [] → handleKey now ev s = s) ∧
    (redoCond ev → s.redoStack = [] → handleKey now ev s = s) := by
  refine ⟨?_, ?_, ?_, ?_, ?_⟩
  · intro hk h2 h3 h4
    have e : handleKey now ev s = saveHistory true now s := by
      rw [handleKey_backspace now ev s hk]
      simp only [backspacePhase, saveHistory_sentenceSelection, saveHistory_wordSelection,
        saveHistory_cursorPosition, h2, h3, h4]
      rw [if_neg (Nat.lt_irrefl 0)]
    rw [e]
    exact ⟨saveHistory_text _ _ _, saveHistory_cursorPosition _ _ _, saveHistory_ghostRanges _ _ _,
      saveHistory_committedSentences _ _ _,
      (saveHistory_wordSelection _ _ _).trans h3, (saveHistory_sentenceSelection _ _ _).trans h2,
      saveHistory_force_undoStack _ _, saveHistory_force_redoStack _ _⟩
  · intro sel hk h2 h3
    rw [handleKey_arrowUp now ev s hk]
    simp only [arrowUpPhase, if_pos hk, h2, h3]
    rw [if_neg (lt_irrefl (0 : Int))]
  · intro sel hk h2 h3
    rw [handleKey_arrowDown now ev s hk]
    rw [arrowUpPhase_skip _ _ _ _ (by rw [hk]; decide)]
    simp only [arrowDownPhase, if_pos hk, h2, h3]
    rw [if_neg (lt_irrefl (((parseDocument s.text).sentences.length : Int) - 1))]
  · intro h1 h2
    rw [handleKey_undo now ev s h1]
    simp only [doUndo, h2, List.getLast?]
  · intro h1 h2
    rw [handleKey_redo now ev s h1]
    simp only [doRedo, h2, List.getLast?]

/-- Claim C2 counterexample: the claim as stated requires a failed
Backspace (no selection, cursor 0) to leave the undo and redo stacks
unchanged; on the empty initial state it pushes a snapshot onto the
previously empty undo stack. -/
theorem c2_counterexample :
    (initialState [] ∅).cursorPosition = 0 ∧
    (initialState [] ∅).wordSelection = none ∧
    (initialState [] ∅).sentenceSelection = none ∧
    (handleKey 7 (plainEv "Backspace") (initialState [] ∅)).undoStack ≠
      (initialState [] ∅).undoStack := by
  decide

/-- Sentence selection on sentence 0 of a two-sentence buffer (reorder-up
precondition fails). -/
def c2StateUp : EditorState :=
  { initialState "A. B.".toList ∅ with sentenceSelection := some ⟨0, 0, Dir.right⟩ }

/-- Sentence selection on the final sentence of a two-sentence buffer
(reorder-down precondition fails). -/
def c2StateDown : EditorState :=
  { initialState "A. B.".toList ∅ with sentenceSelection := some ⟨1, 1, Dir.right⟩ }

/-- Witness for the amended Claim C2 at concrete states. -/
theorem c2_witness :
    (handleKey 7 (plainEv "Backspace") (initialState [] ∅)).undoStack =
        jsTakeLast 99 (initialState [] ∅).undoStack ++ [snapshot (initialState [] ∅)] ∧
    handleKey 3 (plainEv "ArrowUp") c2StateUp = c2StateUp ∧
    handleKey 3 (plainEv "ArrowDown") c2StateDown = c2StateDown ∧
    handleKey 3 undoEvent (initialState "x".toList ∅) = initialState "x".toList ∅ ∧
    handleKey 3 redoEvent (initialState "x".toList ∅) = initialState "x".toList ∅ :=
  ⟨((c2_failed_precondition_ops 7 (plainEv "Backspace") (initialState [] ∅)).1
      rfl rfl rfl rfl).2.2.2.2.2.2.1,
   (c2_failed_precondition_ops 3 (plainEv "ArrowUp") c2StateUp).2.1
      ⟨0, 0, Dir.right⟩ rfl rfl (by decide),
   (c2_failed_precondition_ops 3 (plainEv "ArrowDown") c2StateDown).2.2.1
      ⟨1, 1, Dir.right⟩ rfl rfl (by decide),
   (c2_failed_precondition_ops 3 undoEvent (initialState "x".toList ∅)).2.2.2.1
      (by decide) rfl,
   (c2_failed_precondition_ops 3 redoEvent (initialState "x".toList ∅)).2.2.2.2
      (by decide) rfl⟩

/-! ## Counterexamples for claims C1, C3, C4, C5 -/

/-- Claim C1 counterexample: from the initial state for "ab" (cursor 2), a
single plain ArrowLeft (a key-event operation, n = 1) moves the cursor
without capturing any history snapshot, so one undo leaves the cursor at 1
and does not restore the initial text/cursor/ghost/committed tuple. -/
theorem c1_counterexample :
    snapshot (handleKey 0 undoEvent
        (handleKey 0 (plainEv "ArrowLeft") (initialState "ab".toList ∅))) ≠
      snapshot (initialState "ab".toList ∅) := by
  decide

/-- Buffer "A. B" (second sentence has no terminal punctuation), first
sentence "A." committed, selection on sentence 1. -/
def c3State : EditorState :=
  { text := "A. B".toList, cursorPosition := 0,
    wordSelection := none, sentenceSelection := some ⟨1, 1, Dir.right⟩,
    committedSentences := {0}, ghostRanges := [],
    undoStack := [], redoStack := [], lastEditTime := 0 }

/-- Claim C3 counterexample: reordering "B" above the committed "A."
produces the buffer "B A.", which re-parses as a single sentence; the
remapped committed index 1 addresses no sentence, so the committed
sentence texts change from {"A."} to {}. -/
theorem c3_counterexample :
    c3State.sentenceSelection = some ⟨1, 1, Dir.right⟩ ∧
    (0 : Int) < min (1 : Int) 1 ∧
    committedTexts (handleKey 0 (plainEv "ArrowUp") c3State).text
        (handleKey 0 (plainEv "ArrowUp") c3State).committedSentences ≠
      committedTexts c3State.text c3State.committedSentences := by
  decide

/-- Buffer "Pick one x." (one committed sentence) carrying the ghost range
[5, 9) left by a previous committed-selection insertion, with the word
"one" (span [5, 8)) selected again. -/
def c4State : EditorState :=
  { text := "Pick one x.".toList, cursorPosition := 10,
    wordSelection := some ⟨1, 1, Dir.right⟩, sentenceSelection := none,
    committedSentences := {0}, ghostRanges := [⟨5, 9⟩],
    undoStack := [], redoStack := [], lastEditTime := 0 }

/-- Claim C4 counterexample: typing `y` into the committed selection
inserts " y" at position 8; the pre-existing ghost range [5, 9) straddles
the insertion point and grows to [5, 11), which contains the newly typed
character at position 9 — contradicting the claim that the typed
character lies in no ghost range. -/
theorem c4_counterexample :
    getWordSelectionRange (parseDocument c4State.text) 1 1 = (5, 8) ∧
    getSentenceIndexAtPosition (parseDocument c4State.text) 5 = 0 ∧
    (0 : Int) ∈ c4State.committedSentences ∧
    isInGhostRange 9 (handleKey 0 (charEv 'y') c4State).ghostRanges = true := by
  decide

/-- Claim C5 counterexample: three character insertions at times 0, 400
and 800 ms starting from a fresh state produce exactly one snapshot.  The
call at 800 ms is a no-op even though the one snapshot was captured 800 ms
(more than the 500 ms window) earlier: the batching test compares against
the time of the previous `saveHistory` call (400 ms), not of the previous
captured snapshot. -/
theorem c5_counterexample :
    (applyEvents [(0, charEv 'a')] (initialState [] ∅)).undoStack.length = 1 ∧
    (applyEvents [(0, charEv 'a'), (400, charEv 'b')] (initialState [] ∅)).undoStack.length = 1 ∧
    (applyEvents [(0, charEv 'a'), (400, charEv 'b'), (800, charEv 'c')]
        (initialState [] ∅)).undoStack.length = 1 := by
  decide

/-! ## Claim C7 -/

/-- Claim C7: for an existing (well-formed: `0 ≤ end < count`) word or
sentence selection, an extension step opposite to the recorded direction
that would move `end` strictly past `start` collapses the selection to
`none`; otherwise, a step that would move `end` outside `[0, count-1]`
returns the selection unchanged (clamps); otherwise `end` changes by
exactly ±1 with `start` and `direction` unchanged. -/
theorem c7_selection_extension (ast : DocumentAST) (cursor : Nat) (sel : Sel) :
    ((0 : Int) ≤ sel.stop → sel.stop < (ast.words.length : Int) →
      ((sel.direction = Dir.left → sel.start < sel.stop + 1 →
          wordSelRight ast cursor (some sel) = none) ∧
       (¬(sel.direction = Dir.left ∧ sel.start < sel.stop + 1) →
          (ast.words.length : Int) ≤ sel.stop + 1 →
          wordSelRight ast cursor (some sel) = some sel) ∧
       (¬(sel.direction = Dir.left ∧ sel.start < sel.stop + 1) →
          sel.stop + 1 < (ast.words.length : Int) →
          wordSelRight ast cursor (some sel) = some { sel with stop := sel.stop + 1 }) ∧
       (sel.direction = Dir.right → sel.stop - 1 < sel.start →
          wordSelLeft ast cursor (some sel) = none) ∧
       (¬(sel.direction = Dir.right ∧ sel.stop - 1 < sel.start) →
          sel.stop - 1 < 0 →
          wordSelLeft ast cursor (some sel) = some sel) ∧
       (¬(sel.direction = Dir.right ∧ sel.stop - 1 < sel.start) →
          0 ≤ sel.stop - 1 →
          wordSelLeft ast cursor (some sel) = some { sel with stop := sel.stop - 1 }))) ∧
    ((0 : Int) ≤ sel.stop → sel.stop < (ast.sentences.length : Int) →
      ((sel.direction = Dir.left → sel.start < sel.stop + 1 →
          sentSelRight ast cursor (some sel) = none) ∧
       (¬(sel.direction = Dir.left ∧ sel.start < sel.stop + 1) →
          (ast.sentences.length : Int) ≤ sel.stop + 1 →
          sentSelRight ast cursor (some sel) = some sel) ∧
       (¬(sel.direction = Dir.left ∧ sel.start < sel.stop + 1) →
          sel.stop + 1 < (ast.sentences.length : Int) →
          sentSelRight ast cursor (some sel) = some { sel with stop := sel.stop + 1 }) ∧
       (sel.direction = Dir.right → sel.stop - 1 < sel.start →
          sentSelLeft ast cursor (some sel) = none) ∧
       (¬(sel.direction = Dir.right ∧ sel.stop - 1 < sel.start) →
          sel.stop - 1 < 0 →
          sentSelLeft ast cursor (some sel) = some sel) ∧
       (¬(sel.direction = Dir.right ∧ sel.stop - 1 < sel.start) →
          0 ≤ sel.stop - 1 →
          sentSelLeft ast cursor (some sel) = some { sel with stop := sel.stop - 1 }))) := by
  constructor
  · intro h0 hlt
    refine ⟨?_, ?_, ?_, ?_, ?_, ?_⟩
    · intro h1 h2
      simp only [wordSelRight]
      rw [if_pos ⟨h1, h2⟩]
    · intro h1 h2
      simp only [wordSelRight]
      rw [if_neg h1, if_pos h2]
    · intro h1 h2
      simp only [wordSelRight]
      rw [if_neg h1, if_neg (not_le.mpr h2)]
    · intro h1 h2
      simp only [wordSelLeft]
      rw [if_pos ⟨h1, h2⟩]
    · intro h1 h2
      simp only [wordSelLeft]
      rw [if_neg h1, if_pos h2]
    · intro h1 h2
      simp only [wordSelLeft]
      rw [if_neg h1, if_neg (not_lt.mpr h2)]
  · intro h0 hlt
    refine ⟨?_, ?_, ?_, ?_, ?_, ?_⟩
    · intro h1 h2
      simp only [sentSelRight]
      rw [if_pos ⟨h1, h2⟩]
    · intro h1 h2
      simp only [sentSelRight]
      rw [if_neg h1, if_pos h2]
    · intro h1 h2
      simp only [sentSelRight]
      rw [if_neg h1, if_neg (not_le.mpr h2)]
    · intro h1 h2
      simp only [sentSelLeft]
      rw [if_pos ⟨h1, h2⟩]
    · intro h1 h2
      simp only [sentSelLeft]
      rw [if_neg h1, if_pos h2]
    · intro h1 h2
      simp only [sentSelLeft]
      rw [if_neg h1, if_neg (not_lt.mpr h2)]

/-- Witness for Claim C7 on three-word / three-sentence documents:
crossing collapse, bounds clamp and plain extension, in both
granularities. -/
theorem c7_witness :
    wordSelRight (parseDocument "a b c".toList) 0 (some ⟨1, 1, Dir.left⟩) = none ∧
    wordSelRight (parseDocument "a b c".toList) 0 (some ⟨0, 2, Dir.right⟩) =
      some ⟨0, 2, Dir.right⟩ ∧
    wordSelRight (parseDocument "a b c".toList) 0 (some ⟨0, 1, Dir.right⟩) =
      some ⟨0, 2, Dir.right⟩ ∧
    wordSelLeft (parseDocument "a b c".toList) 0 (some ⟨1, 1, Dir.right⟩) = none ∧
    wordSelLeft (parseDocument "a b c".toList) 0 (some ⟨2, 0, Dir.left⟩) =
      some ⟨2, 0, Dir.left⟩ ∧
    wordSelLeft (parseDocument "a b c".toList) 0 (some ⟨2, 1, Dir.left⟩) =
      some ⟨2, 0, Dir.left⟩ ∧
    sentSelRight (parseDocument "A. B. C.".toList) 0 (some ⟨1, 1, Dir.left⟩) = none ∧
    sentSelRight (parseDocument "A. B. C.".toList) 0 (some ⟨0, 2, Dir.right⟩) =
      some ⟨0, 2, Dir.right⟩ ∧
    sentSelRight (parseDocument "A. B. C.".toList) 0 (some ⟨0, 1, Dir.right⟩) =
      some ⟨0, 2, Dir.right⟩ ∧
    sentSelLeft (parseDocument "A. B. C.".toList) 0 (some ⟨1, 1, Dir.right⟩) = none ∧
    sentSelLeft (parseDocument "A. B. C.".toList) 0 (some ⟨2, 0, Dir.left⟩) =
      some ⟨2, 0, Dir.left⟩ ∧
    sentSelLeft (parseDocument "A. B. C.".toList) 0 (some ⟨2, 1, Dir.left⟩) =
      some ⟨2, 0, Dir.left⟩ := by
  refine ⟨?_, ?_, ?_, ?_, ?_, ?_, ?_, ?_, ?_, ?_, ?_, ?_⟩
  · exact ((c7_selection_extension (parseDocument "a b c".toList) 0
      ⟨1, 1, Dir.left⟩).1 (by decide) (by decide)).1 rfl (by decide)
  · exact ((c7_selection_extension (parseDocument "a b c".toList) 0
      ⟨0, 2, Dir.right⟩).1 (by decide) (by decide)).2.1 (by decide) (by decide)
  · exact (((c7_selection_extension (parseDocument "a b c".toList) 0
      ⟨0, 1, Dir.right⟩).1 (by decide) (by decide)).2.2.1 (by decide) (by decide)).trans
      (by decide)
  · exact ((c7_selection_extension (parseDocument "a b c".toList) 0
      ⟨1, 1, Dir.right⟩).1 (by decide) (by decide)).2.2.2.1 rfl (by decide)
  · exact ((c7_selection_extension (parseDocument "a b c".toList) 0
      ⟨2, 0, Dir.left⟩).1 (by decide) (by decide)).2.2.2.2.1 (by decide) (by decide)
  · exact (((c7_selection_extension (parseDocument "a b c".toList) 0
      ⟨2, 1, Dir.left⟩).1 (by decide) (by decide)).2.2.2.2.2 (by decide) (by decide)).trans
      (by decide)
  · exact ((c7_selection_extension (parseDocument "A. B. C.".toList) 0
      ⟨1, 1, Dir.left⟩).2 (by decide) (by decide)).1 rfl (by decide)
  · exact ((c7_selection_extension (parseDocument "A. B. C.".toList) 0
      ⟨0, 2, Dir.right⟩).2 (by decide) (by decide)).2.1 (by decide) (by decide)
  · exact (((c7_selection_extension (parseDocument "A. B. C.".toList) 0
      ⟨0, 1, Dir.right⟩).2 (by decide) (by decide)).2.2.1 (by decide) (by decide)).trans
      (by decide)
  · exact ((c7_selection_extension (parseDocument "A. B. C.".toList) 0
      ⟨1, 1, Dir.right⟩).2 (by decide) (by decide)).2.2.2.1 rfl (by decide)
  · exact ((c7_selection_extension (parseDocument "A. B. C.".toList) 0
      ⟨2, 0, Dir.left⟩).2 (by decide) (by decide)).2.2.2.2.1 (by decide) (by decide)
  · exact (((c7_selection_extension (parseDocument "A. B. C.".toList) 0
      ⟨2, 1, Dir.left⟩).2 (by decide) (by decide)).2.2.2.2.2 (by decide) (by decide)).trans
      (by decide)

/-! ## Phase-level history-stack lemmas -/

theorem printablePhase_undoStack (now : Nat) (ev : KeyEvent) (ast : DocumentAST) (s : EditorState) :
    (printablePhase now ev ast s).undoStack = (saveHistory false now s).undoStack := by
  simp only [printablePhase]
  split
  · split <;> rfl
  · rfl

theorem printablePhase_lastEditTime (now : Nat) (ev : KeyEvent) (ast : DocumentAST) (s : EditorState) :
    (printablePhase now ev ast s).lastEditTime = now := by
  have h : (saveHistory false now s).lastEditTime = now := saveHistory_lastEditTime false now s
  simp only [printablePhase]
  split
  · split <;> exact h
  · exact h

theorem printablePhase_redoStack (now : Nat) (ev : KeyEvent) (ast : DocumentAST) (s : EditorState) :
    (printablePhase now ev ast s).redoStack = (saveHistory false now s).redoStack := by
  simp only [printablePhase]
  split
  · split <;> rfl
  · rfl

theorem backspacePhase_undoStack (now : Nat) (ev : KeyEvent) (ast : DocumentAST) (s : EditorState) :
    (backspacePhase now ev ast s).undoStack = jsTakeLast 99 s.undoStack ++ [snapshot s] := by
  have h : (saveHistory true now s).undoStack = jsTakeLast 99 s.undoStack ++ [snapshot s] :=
    saveHistory_force_undoStack now s
  simp only [backspacePhase]
  split
  · exact h
  · split
    · exact h
    · split
      · split
        · exact h
        · split
          · exact h
          · exact h
      · exact h

theorem backspacePhase_redoStack (now : Nat) (ev : KeyEvent) (ast : DocumentAST) (s : EditorState) :
    (backspacePhase now ev ast s).redoStack = [] := by
  simp only [backspacePhase]
  split
  · rfl
  · split
    · rfl
    · split
      · split
        · rfl
        · split
          · rfl
          · rfl
      · rfl

theorem backspacePhase_lastEditTime (now : Nat) (ev : KeyEvent) (ast : DocumentAST) (s : EditorState) :
    (backspacePhase now ev ast s).lastEditTime = now := by
  have h : (saveHistory true now s).lastEditTime = now := saveHistory_lastEditTime true now s
  simp only [backspacePhase]
  split
  · exact h
  · split
    · exact h
    · split
      · split
        · exact h
        · split
          · exact h
          · exact h
      · exact h

theorem handleKey_char_undoStack (now : Nat) (c : Char) (s : EditorState) :
    (handleKey now (charEv c) s).undoStack = (saveHistory false now s).undoStack := by
  rw [handleKey_char]
  exact printablePhase_undoStack now (charEv c) (parseDocument s.text) s

theorem handleKey_char_lastEditTime (now : Nat) (c : Char) (s : EditorState) :
    (handleKey now (charEv c) s).lastEditTime = now := by
  rw [handleKey_char]
  exact printablePhase_lastEditTime now (charEv c) (parseDocument s.text) s

/-! ## Claim C5 -/

/-- Claim C5 (amended): a non-forced snapshot request is a no-op exactly
when the previous `saveHistory` call — whether or not it captured a
snapshot — happened less than the 500 ms batching window before AND the
undo stack is nonempty (stated below the cap of 100 entries).
Consequently: two character insertions from a fresh state produce one
snapshot if within the window and two otherwise, and an insertion
followed by a forced-snapshot Backspace and a further insertion within
the window produces exactly two snapshots. -/
theorem c5_history_batching :
    (∀ (now : Nat) (s : EditorState), s.undoStack.length ≤ 99 →
      ((saveHistory false now s).undoStack = s.undoStack ↔
        (now - s.lastEditTime < 500 ∧ s.undoStack ≠ []))) ∧
    (∀ (s0 : EditorState) (c1 c2 : Char) (t1 t2 : Nat), s0.undoStack = [] →
      (handleKey t2 (charEv c2) (handleKey t1 (charEv c1) s0)).undoStack.length =
        if t2 - t1 < 500 then 1 else 2) ∧
    (∀ (s0 : EditorState) (c1 c2 : Char) (t1 t2 t3 : Nat), s0.undoStack = [] →
      t3 - t2 < 500 →
      (handleKey t3 (charEv c2)
        (handleKey t2 (plainEv "Backspace") (handleKey t1 (charEv c1) s0))).undoStack.length = 2) := by
  have hpush : ∀ (s : EditorState), s.undoStack.length ≤ 99 →
      jsTakeLast 99 s.undoStack = s.undoStack := by
    intro s h
    have : s.undoStack.length - 99 = 0 := by omega
    simp [jsTakeLast, this]
  refine ⟨?_, ?_, ?_⟩
  · intro now s hlen
    simp only [saveHistory, Bool.not_false, Bool.true_and]
    by_cases hb : (decide (now - s.lastEditTime < 500) && !s.undoStack.isEmpty) = true
    · rw [if_pos hb]
      rw [Bool.and_eq_true] at hb
      obtain ⟨hb1, hb2⟩ := hb
      refine ⟨fun _ => ⟨of_decide_eq_true hb1, fun hnil => by simp [hnil] at hb2⟩, fun _ => rfl⟩
    · rw [if_neg hb]
      constructor
      · intro heq
        exfalso
        rw [hpush s hlen] at heq
        have := congrArg List.length heq
        simp at this
      · rintro ⟨h1, h2⟩
        exfalso
        apply hb
        simp [h1, List.isEmpty_iff, h2]
  · intro s0 c1 c2 t1 t2 h
    have h1 : (handleKey t1 (charEv c1) s0).undoStack = [snapshot s0] := by
      rw [handleKey_char_undoStack]
      simp [saveHistory, h, jsTakeLast]
    have h2 : (handleKey t1 (charEv c1) s0).lastEditTime = t1 :=
      handleKey_char_lastEditTime t1 c1 s0
    rw [handleKey_char_undoStack]
    simp only [saveHistory, Bool.not_false, Bool.true_and, h1, h2]
    by_cases hlt : t2 - t1 < 500
    · simp [hlt]
    · simp [hlt, jsTakeLast]
  · intro s0 c1 c2 t1 t2 t3 h hlt
    have h1 : (handleKey t1 (charEv c1) s0).undoStack = [snapshot s0] := by
      rw [handleKey_char_undoStack]
      simp [saveHistory, h, jsTakeLast]
    set s1 := handleKey t1 (charEv c1) s0 with hs1
    have h2 : (handleKey t2 (plainEv "Backspace") s1).undoStack =
        [snapshot s0, snapshot s1] := by
      rw [handleKey_backspace t2 (plainEv "Backspace") s1 rfl,
        backspacePhase_undoStack, h1]
      simp [jsTakeLast]
    have h3 : (handleKey t2 (plainEv "Backspace") s1).lastEditTime = t2 := by
      rw [handleKey_backspace t2 (plainEv "Backspace") s1 rfl, backspacePhase_lastEditTime]
    rw [handleKey_char_undoStack]
    simp [saveHistory, h2, h3, hlt]

/-- Witness for the amended Claim C5 at concrete times and characters. -/
theorem c5_witness :
    (handleKey 400 (charEv 'b') (handleKey 0 (charEv 'a') (initialState [] ∅))).undoStack.length =
      (if 400 - 0 < 500 then 1 else 2) ∧
    (handleKey 600 (charEv 'b') (handleKey 0 (charEv 'a') (initialState [] ∅))).undoStack.length =
      (if 600 - 0 < 500 then 1 else 2) ∧
    (handleKey 200 (charEv 'b') (handleKey 100 (plainEv "Backspace")
        (handleKey 0 (charEv 'a') (initialState [] ∅)))).undoStack.length = 2 ∧
    ((saveHistory false 600 (initialState "q".toList ∅)).undoStack =
        (initialState "q".toList ∅).undoStack ↔
      (600 - (initialState "q".toList ∅).lastEditTime < 500 ∧
        (initialState "q".toList ∅).undoStack ≠ [])) :=
  ⟨c5_history_batching.2.1 _ 'a' 'b' 0 400 rfl,
   c5_history_batching.2.1 _ 'a' 'b' 0 600 rfl,
   c5_history_batching.2.2 _ 'a' 'b' 0 100 200 rfl (by decide),
   c5_history_batching.1 600 _ (by decide)⟩

/-! ## Printable-key branch characterizations (claims C4 and C9) -/

theorem selectionRange_saveHistory (f : Bool) (now : Nat) (ast : DocumentAST) (s : EditorState) :
    selectionRange ast (saveHistory f now s) = selectionRange ast s := by
  simp only [selectionRange, saveHistory_sentenceSelection, saveHistory_wordSelection]

/-- The spacer inserted before the typed text when the selection's
sentence is committed: a single space when the key is alphanumeric. -/
def spacerOf (ev : KeyEvent) : List Char :=
  if ev.key.toList.any isAlnumChar then [' '] else []

theorem printablePhase_committed_eq (now : Nat) (ev : KeyEvent) (ast : DocumentAST)
    (s0 : EditorState) (range : Nat × Nat)
    (hr : selectionRange ast s0 = some range)
    (hc : ((getSentenceIndexAtPosition ast range.1 : Int) ∈ s0.committedSentences)) :
    printablePhase now ev ast s0 =
      { saveHistory false now s0 with
        text := s0.text.take range.2 ++ (spacerOf ev ++ ev.key.toList) ++ s0.text.drop range.2,
        ghostRanges := adjustRanges s0.ghostRanges range.2
            (((spacerOf ev ++ ev.key.toList).length : Nat) : Int) ++
          [⟨range.1, range.2 + (spacerOf ev).length⟩],
        cursorPosition := range.2 + (spacerOf ev ++ ev.key.toList).length,
        wordSelection := none, sentenceSelection := none } := by
  have hc1 : ((getSentenceIndexAtPosition ast range.1 : Int) ∈
      (saveHistory false now s0).committedSentences) := by
    rw [saveHistory_committedSentences]; exact hc
  simp only [printablePhase, selectionRange_saveHistory, hr]
  rw [if_pos hc1]
  simp only [saveHistory_text, saveHistory_ghostRanges, spacerOf]

theorem printablePhase_replace_eq (now : Nat) (ev : KeyEvent) (ast : DocumentAST)
    (s0 : EditorState) (range : Nat × Nat)
    (hr : selectionRange ast s0 = some range)
    (hc : ((getSentenceIndexAtPosition ast range.1 : Int) ∉ s0.committedSentences)) :
    printablePhase now ev ast s0 =
      { saveHistory false now s0 with
        text := s0.text.take range.1 ++ ev.key.toList ++ s0.text.drop range.2,
        ghostRanges := adjustRanges s0.ghostRanges range.1 (1 - ((range.2 : Int) - (range.1 : Int))),
        cursorPosition := range.1 + 1,
        wordSelection := none, sentenceSelection := none } := by
  have hc1 : ¬ ((getSentenceIndexAtPosition ast range.1 : Int) ∈
      (saveHistory false now s0).committedSentences) := by
    rw [saveHistory_committedSentences]; exact hc
  simp only [printablePhase, selectionRange_saveHistory, hr]
  rw [if_neg hc1]
  simp only [saveHistory_text, saveHistory_ghostRanges]

/-- An insertion of `sp + 1` characters at `changePos` leaves the position
`changePos + sp` (inside the inserted text) outside every adjusted ghost
range, provided no pre-existing range strictly straddles `changePos`. -/
theorem typed_pos_not_in_adjusted (ghosts : List GhostRange) (changePos sp : Nat)
    (h : ∀ r ∈ ghosts, ¬(r.start < changePos ∧ changePos < r.stop)) :
    isInGhostRange (changePos + sp) (adjustRanges ghosts changePos ((sp + 1 : Nat) : Int)) = false := by
  rw [isInGhostRange, List.any_eq_false]
  intro r' hmem
  rw [adjustRanges, List.mem_filter] at hmem
  obtain ⟨hmem1, _⟩ := hmem
  rw [List.mem_filterMap] at hmem1
  obtain ⟨r, hrg, hadj⟩ := hmem1
  have hpos : (0 : Int) < ((sp + 1 : Nat) : Int) := by positivity
  rw [adjustRange, if_pos hpos] at hadj
  by_cases h1 : changePos ≤ r.start
  · rw [if_pos h1] at hadj
    have heq : r' = { start := r.start + ((sp + 1 : Nat) : Int).toNat,
                      stop := r.stop + ((sp + 1 : Nat) : Int).toNat } :=
      (Option.some_injective _ hadj).symm
    rw [heq]
    simp only [Int.toNat_ofNat]
    simp
    omega
  · rw [if_neg h1] at hadj
    by_cases h2 : changePos < r.stop
    · exact absurd ⟨by omega, h2⟩ (h r hrg)
    · rw [if_neg h2] at hadj
      have heq : r' = r := (Option.some_injective _ hadj).symm
      rw [heq]
      simp
      omega

/-! ## Claim C4 -/

/-- Claim C4 (amended): typing a printable character into an active word
or sentence selection whose (range-start) sentence is committed keeps the
old text (pure insertion at the selection's end), inserts a single-space
separator exactly when the key is alphanumeric, appends a new ghost range
spanning the original selection span plus the separator, and puts the
cursor right after the inserted text; the newly typed character lies in
no ghost range provided no pre-existing ghost range strictly straddles
the insertion position (a straddling range grows over the inserted text,
which is what the counterexample exhibits). -/
theorem c4_committed_selection_insert (now : Nat) (c : Char) (s : EditorState) (range : Nat × Nat)
    (hr : selectionRange (parseDocument s.text) s = some range)
    (hc : (getSentenceIndexAtPosition (parseDocument s.text) range.1 : Int) ∈ s.committedSentences)
    (hstraddle : ∀ r ∈ s.ghostRanges, ¬(r.start < range.2 ∧ range.2 < r.stop)) :
    spacerOf (charEv c) = (if isAlnumChar c = true then [' '] else []) ∧
    (handleKey now (charEv c) s).text =
      s.text.take range.2 ++ (spacerOf (charEv c) ++ [c]) ++ s.text.drop range.2 ∧
    (handleKey now (charEv c) s).ghostRanges =
      adjustRanges s.ghostRanges range.2 (((spacerOf (charEv c) ++ [c]).length : Nat) : Int) ++
        [⟨range.1, range.2 + (spacerOf (charEv c)).length⟩] ∧
    isInGhostRange (range.2 + (spacerOf (charEv c)).length)
      (handleKey now (charEv c) s).ghostRanges = false ∧
    (handleKey now (charEv c) s).cursorPosition =
      range.2 + (spacerOf (charEv c)).length + 1 := by
  have hkey : (charEv c).key.toList = [c] := rfl
  have hmain := printablePhase_committed_eq now (charEv c) (parseDocument s.text) s range hr hc
  rw [handleKey_char, hmain]
  refine ⟨?_, ?_, ?_, ?_, ?_⟩
  · rw [spacerOf, hkey]
    simp
  · rw [hkey]
  · rw [hkey]
  · rw [hkey]
    have hlen : (((spacerOf (charEv c) ++ [c]).length : Nat) : Int) =
        ((((spacerOf (charEv c)).length + 1 : Nat) : Nat) : Int) := by simp
    show isInGhostRange (range.2 + (spacerOf (charEv c)).length)
      (adjustRanges s.ghostRanges range.2 (((spacerOf (charEv c) ++ [c]).length : Nat) : Int) ++
        [⟨range.1, range.2 + (spacerOf (charEv c)).length⟩]) = false
    rw [hlen, isInGhostRange, List.any_append]
    have h1 := typed_pos_not_in_adjusted s.ghostRanges range.2 (spacerOf (charEv c)).length hstraddle
    rw [isInGhostRange] at h1
    rw [h1]
    simp
  · show range.2 + (spacerOf (charEv c) ++ (charEv c).key.toList).length =
      range.2 + (spacerOf (charEv c)).length + 1
    rw [hkey, List.length_append]
    simp [Nat.add_assoc]

/-- Buffer "Pick one." with its sentence committed; the word "one"
(span [5, 8)) is selected; no ghost ranges yet. -/
def c4WitnessState : EditorState :=
  { initialState "Pick one.".toList {0} with wordSelection := some ⟨1, 1, Dir.right⟩ }

/-- Witness for the amended Claim C4: typing `t` over the committed
selection "one" yields buffer "Pick one t.", ghost range [5, 9), cursor
10, and the typed character (position 9) is in no ghost range. -/
theorem c4_witness :
    spacerOf (charEv 't') = [' '] ∧
    (handleKey 0 (charEv 't') c4WitnessState).text = "Pick one t.".toList ∧
    (handleKey 0 (charEv 't') c4WitnessState).ghostRanges = [⟨5, 9⟩] ∧
    isInGhostRange 9 (handleKey 0 (charEv 't') c4WitnessState).ghostRanges = false ∧
    (handleKey 0 (charEv 't') c4WitnessState).cursorPosition = 10 :=
  have h := c4_committed_selection_insert 0 't' c4WitnessState (5, 8)
    (by decide) (by decide) (by decide)
  ⟨h.1.trans (by decide), h.2.1.trans (by decide), h.2.2.1.trans (by decide),
   by simpa using h.2.2.2.1, h.2.2.2.2.trans (by decide)⟩

/-! ## Claim C9 -/

/-- Claim C9: with an active word or sentence selection, the printable-key
branch consults only the committed status of the sentence containing the
selection range's start.  (i) If that sentence is uncommitted the
selection is deleted and replaced outright — no assumption on any other
covered sentence.  (ii) Any two committed sets agreeing on that one
sentence index produce the same text, cursor and ghost ranges. -/
theorem c9_committed_check_uses_first_sentence (now : Nat) (c : Char) (s : EditorState) :
    (∀ range : Nat × Nat, selectionRange (parseDocument s.text) s = some range →
      ((getSentenceIndexAtPosition (parseDocument s.text) range.1 : Int) ∉ s.committedSentences →
        (handleKey now (charEv c) s).text = s.text.take range.1 ++ [c] ++ s.text.drop range.2 ∧
        (handleKey now (charEv c) s).cursorPosition = range.1 + 1 ∧
        (handleKey now (charEv c) s).ghostRanges =
          adjustRanges s.ghostRanges range.1 (1 - ((range.2 : Int) - (range.1 : Int))))) ∧
    (∀ (C : Finset ℤ) (range : Nat × Nat), selectionRange (parseDocument s.text) s = some range →
      (((getSentenceIndexAtPosition (parseDocument s.text) range.1 : Int) ∈ C) ↔
        ((getSentenceIndexAtPosition (parseDocument s.text) range.1 : Int) ∈ s.committedSentences)) →
      ((handleKey now (charEv c) { s with committedSentences := C }).text =
          (handleKey now (charEv c) s).text ∧
        (handleKey now (charEv c) { s with committedSentences := C }).cursorPosition =
          (handleKey now (charEv c) s).cursorPosition ∧
        (handleKey now (charEv c) { s with committedSentences := C }).ghostRanges =
          (handleKey now (charEv c) s).ghostRanges)) := by
  constructor
  · intro range hr hnc
    rw [handleKey_char, printablePhase_replace_eq now (charEv c) (parseDocument s.text) s range hr hnc]
    exact ⟨rfl, rfl, rfl⟩
  · intro C range hr hiff
    have hrC : selectionRange (parseDocument s.text) { s with committedSentences := C } =
        some range := hr
    by_cases hmem : (getSentenceIndexAtPosition (parseDocument s.text) range.1 : Int) ∈
        s.committedSentences
    · rw [handleKey_char, handleKey_char,
        printablePhase_committed_eq now (charEv c) (parseDocument s.text) s range hr hmem,
        printablePhase_committed_eq now (charEv c) (parseDocument s.text)
          { s with committedSentences := C } range hrC (hiff.mpr hmem)]
      exact ⟨rfl, rfl, rfl⟩
    · rw [handleKey_char, handleKey_char,
        printablePhase_replace_eq now (charEv c) (parseDocument s.text) s range hr hmem,
        printablePhase_replace_eq now (charEv c) (parseDocument s.text)
          { s with committedSentences := C } range hrC (fun hcm => hmem (hiff.mp hcm))]
      exact ⟨rfl, rfl, rfl⟩

/-- Buffer "A. B." with the second sentence committed and both sentences
selected; the first (range-start) sentence is uncommitted. -/
def c9WitnessState : EditorState :=
  { initialState "A. B.".toList {1} with sentenceSelection := some ⟨0, 1, Dir.right⟩ }

/-- Witness for Claim C9: the multi-sentence selection is replaced
outright, destroying the committed sentence "B.", and emptying the
committed set changes nothing about the resulting text. -/
theorem c9_witness :
    (handleKey 0 (charEv 'x') c9WitnessState).text = "x".toList ∧
    (handleKey 0 (charEv 'x') { c9WitnessState with committedSentences := ∅ }).text =
      (handleKey 0 (charEv 'x') c9WitnessState).text :=
  ⟨((c9_committed_check_uses_first_sentence 0 'x' c9WitnessState).1 (0, 5)
      (by decide) (by decide)).1.trans (by decide),
   ((c9_committed_check_uses_first_sentence 0 'x' c9WitnessState).2 ∅ (0, 5)
      (by decide) (by decide)).1⟩

theorem runsAux_flatten (l : List Char) : ∀ (cls : Bool) (cur : List Char),
    (runsAux cls cur l).flatten = cur.reverse ++ l := by
  induction l with
  | nil => intro cls cur; simp [runsAux]
  | cons c rest ih =>
    intro cls cur
    rw [runsAux]
    split
    · rw [ih]
      simp
    · simp only [List.flatten_cons]
      rw [ih]
      simp

theorem charRuns_flatten (text : List Char) : (charRuns text).flatten = text := by
  cases text with
  | nil => rfl
  | cons c rest => simp [charRuns, runsAux_flatten]

theorem tokensFrom_text (rs : List (List Char)) : ∀ pos : Nat,
    tokensText (tokensFrom pos rs) = rs.flatten := by
  induction rs with
  | nil => intro pos; rfl
  | cons r rest ih =>
    intro pos
    simp only [tokensFrom, tokensText, List.map, List.flatten_cons]
    have := ih (pos + r.length)
    simp only [tokensText] at this
    rw [this]

theorem tokensFrom_chain (rs : List (List Char)) : ∀ pos : Nat,
    TokChain pos (pos + (rs.map List.length).sum) (tokensFrom pos rs) := by
  induction rs with
  | nil => intro pos; simp [tokensFrom, TokChain]
  | cons r rest ih =>
    intro pos
    rw [tokensFrom]
    refine ⟨rfl, rfl, ?_⟩
    have := ih (pos + r.length)
    have harith : pos + r.length + (rest.map List.length).sum =
        pos + (List.map List.length (r :: rest)).sum := by
      simp [List.sum_cons]
      omega
    rw [harith] at this
    exact this

/-- Claim C6: the tokens produced by `tokenize` partition the input
exactly. -/
theorem c6_token_partition (text : List Char) :
    tokensText (tokenize text) = text ∧ TokChain 0 text.length (tokenize text) := by
  constructor
  · rw [tokenize, tokensFrom_text, charRuns_flatten]
  · have h := tokensFrom_chain (charRuns text) 0
    have hlen : ((charRuns text).map List.length).sum = text.length := by
      rw [← List.length_flatten, charRuns_flatten]
    rw [hlen] at h
    simpa using h

/-- Ordering invariant of the sentence list: indices count up from `idx`,
each sentence starts at or after `lb`, spans a well-ordered range ending
by `len`, and successive sentences start at or after the previous end. -/
def SentOrd (idx lb len : Nat) : List Sentence → Prop
  | [] => True
  | s :: rest => s.index = idx ∧ lb ≤ s.charStart ∧ s.charStart ≤ s.charEnd ∧
      s.charEnd ≤ len ∧ SentOrd (idx + 1) s.charEnd len rest

theorem SentOrd_mono {idx lb len : Nat} {l : List Sentence} (lb' : Nat) (h : SentOrd idx lb len l)
    (hle : lb' ≤ lb) : SentOrd idx lb' len l := by
  cases l with
  | nil => trivial
  | cons s rest =>
    obtain ⟨h1, h2, h3, h4, h5⟩ := h
    exact ⟨h1, le_trans hle h2, h3, h4, h5⟩

theorem TokChain_le {pos len : Nat} {ts : List Token} (h : TokChain pos len ts) : pos ≤ len := by
  induction ts generalizing pos with
  | nil => exact le_of_eq h
  | cons t rest ih =>
    obtain ⟨h1, h2, h3⟩ := h
    have := ih h3
    omega

theorem lastIdxOfAux_lt {c : Char} {i : Nat} :
    ∀ (l : List Char) (n : Nat) (acc : Option Nat),
    lastIdxOfAux c l n acc = some i → acc = some i ∨ (n ≤ i ∧ i < n + l.length) := by
  intro l
  induction l with
  | nil => intro n acc h; exact Or.inl h
  | cons x xs ih =>
    intro n acc h
    rcases ih (n + 1) (if x = c then some n else acc) h with h1 | h1
    · by_cases hx : x = c
      · rw [if_pos hx] at h1
        right
        have : i = n := by injection h1.symm
        simp [this]
      · rw [if_neg hx] at h1
        exact Or.inl h1
    · right
      constructor
      · omega
      · simp only [List.length_cons]
        omega

theorem lastIdxOf_lt {c : Char} {l : List Char} {i : Nat} (h : lastIdxOf c l = some i) :
    i < l.length := by
  rcases lastIdxOfAux_lt l 0 none h with h1 | h1
  · exact absurd h1 (by simp)
  · omega

theorem tokenSentenceEnd_le {t : Token} (heq : t.charEnd = t.charStart + t.text.length) :
    tokenSentenceEnd t ≤ t.charEnd := by
  rw [tokenSentenceEnd]
  split
  · split
    · next i hli =>
      have := lastIdxOf_lt hli
      omega
    · exact le_refl _
  · exact le_refl _

theorem tokenSentenceEnd_ge {t : Token} (heq : t.charEnd = t.charStart + t.text.length) :
    t.charStart ≤ tokenSentenceEnd t := by
  rw [tokenSentenceEnd]
  split
  · split
    · omega
    · omega
  · omega

theorem buildSentencesAux_ok (len : Nat) :
    ∀ (tokens cur : List Token) (sentStart pos idx : Nat),
    TokChain pos len tokens → sentStart ≤ pos →
    SentOrd idx sentStart len (buildSentencesAux len tokens cur sentStart idx) := by
  intro tokens
  induction tokens with
  | nil =>
    intro cur sentStart pos idx hch hle
    have hpl : pos = len := hch
    rw [buildSentencesAux]
    split
    · trivial
    · exact ⟨rfl, le_refl _, show sentStart ≤ len by omega, le_refl _, trivial⟩
  | cons t rest ih =>
    intro cur sentStart pos idx hch hle
    obtain ⟨h1, h2, h3⟩ := hch
    have hEndLe : t.charEnd ≤ len := TokChain_le h3
    have heq : t.charEnd = t.charStart + t.text.length := by omega
    rw [buildSentencesAux]
    split
    · refine ⟨rfl, le_refl _, ?_, ?_, ?_⟩
      · show sentStart ≤ tokenSentenceEnd t
        have := tokenSentenceEnd_ge heq
        omega
      · show tokenSentenceEnd t ≤ len
        have := tokenSentenceEnd_le heq
        omega
      · have hrest := ih [] t.charEnd t.charEnd (idx + 1) h3 (le_refl _)
        exact SentOrd_mono _ hrest (tokenSentenceEnd_le heq)
    · exact ih (cur ++ [t]) sentStart t.charEnd idx h3 (by omega)

/-- The token chain of `tokenize` (the positional half of the partition
invariant), packaged for reuse. -/
theorem tokenize_chain (text : List Char) : TokChain 0 text.length (tokenize text) := by
  have h := tokensFrom_chain (charRuns text) 0
  have hlen : ((charRuns text).map List.length).sum = text.length := by
    rw [← List.length_flatten, charRuns_flatten]
  rw [hlen] at h
  simpa using h

/-- The sentence list of a parse satisfies the ordering invariant. -/
theorem parse_sentences_ord (text : List Char) :
    SentOrd 0 0 text.length (parseDocument text).sentences := by
  have h := buildSentencesAux_ok text.length (tokenize text) [] 0 0 0
    (tokenize_chain text) (le_refl 0)
  exact h

theorem sentOrd_get {len : Nat} : ∀ {l : List Sentence} {idx lb i : Nat} {s : Sentence},
    SentOrd idx lb len l → l.get? i = some s →
    s.index = idx + i ∧ lb ≤ s.charStart ∧ s.charStart ≤ s.charEnd ∧ s.charEnd ≤ len := by
  intro l
  induction l with
  | nil => intro idx lb i s _ hget; simp [List.get?] at hget
  | cons hd tl ih =>
    intro idx lb i s hord hget
    obtain ⟨h1, h2, h3, h4, h5⟩ := hord
    cases i with
    | zero =>
      have : hd = s := by simpa using hget
      subst this
      exact ⟨by omega, h2, h3, h4⟩
    | succ j =>
      have hget' : tl.get? j = some s := by simpa using hget
      obtain ⟨g1, g2, g3, g4⟩ := ih h5 hget'
      exact ⟨by omega, by omega, g3, g4⟩

theorem sentOrd_pair {len : Nat} : ∀ {l : List Sentence} {idx lb i j : Nat}
    {si sj : Sentence}, SentOrd idx lb len l → i < j →
    l.get? i = some si → l.get? j = some sj → si.charEnd ≤ sj.charStart := by
  intro l
  induction l with
  | nil => intro idx lb i j si sj _ _ hgi _; simp [List.get?] at hgi
  | cons hd tl ih =>
    intro idx lb i j si sj hord hij hgi hgj
    obtain ⟨h1, h2, h3, h4, h5⟩ := hord
    cases i with
    | zero =>
      have : hd = si := by simpa using hgi
      subst this
      obtain ⟨j', rfl⟩ : ∃ j', j = j' + 1 := ⟨j - 1, by omega⟩
      have hgj' : tl.get? j' = some sj := by simpa using hgj
      obtain ⟨g1, g2, g3, g4⟩ := sentOrd_get h5 hgj'
      exact g2
    | succ i' =>
      obtain ⟨j', rfl⟩ : ∃ j', j = j' + 1 := ⟨j - 1, by omega⟩
      refine ih h5 ?_ (by simpa using hgi) (by simpa using hgj)
      omega

/-- The disjunction of the two early-return tests of the
`getSentenceAtPosition` loop. -/
def sentTrigger (all : List Sentence) (pos : Nat) (s : Sentence) : Prop :=
  (s.charStart ≤ pos ∧ pos < s.charEnd) ∨
  (s.charEnd ≤ pos ∧
    (match all.get? (s.index + 1) with
     | some s2 => decide (pos < s2.charStart)
     | none => false) = true)

theorem findSentenceLoop_cons_pos {all : List Sentence} {pos : Nat} {s : Sentence}
    (rest : List Sentence) (h : sentTrigger all pos s) :
    findSentenceLoop all pos (s :: rest) = some s := by
  rw [findSentenceLoop]
  by_cases h1 : s.charStart ≤ pos ∧ pos < s.charEnd
  · rw [if_pos h1]
  · rcases h with h | h
    · exact absurd h h1
    · rw [if_neg h1, if_pos h]

theorem findSentenceLoop_cons_neg {all : List Sentence} {pos : Nat} {s : Sentence}
    (rest : List Sentence) (h : ¬ sentTrigger all pos s) :
    findSentenceLoop all pos (s :: rest) = findSentenceLoop all pos rest := by
  rw [findSentenceLoop, if_neg (fun hc => h (Or.inl hc)), if_neg (fun hc => h (Or.inr hc))]

theorem findSentenceLoop_first_aux (all : List Sentence) (pos m : Nat) (sm : Sentence)
    (hm : all.get? m = some sm) (htr : sentTrigger all pos sm)
    (hno : ∀ j sj, j < m → all.get? j = some sj → ¬ sentTrigger all pos sj) :
    ∀ (d k : Nat), m - k = d → k ≤ m → findSentenceLoop all pos (all.drop k) = some sm := by
  have hmlen : m < all.length := by
    by_contra hc
    rw [List.get?_eq_getElem?, List.getElem?_eq_none (by omega)] at hm
    exact Option.noConfusion hm
  intro d
  induction d with
  | zero =>
    intro k hd hk
    obtain rfl : m = k := by omega
    rw [List.drop_eq_getElem_cons hmlen]
    have hsm : all[m] = sm := by
      have h2 := hm
      rw [List.get?_eq_getElem?, List.getElem?_eq_getElem hmlen] at h2
      exact Option.some_injective _ h2
    rw [hsm]
    exact findSentenceLoop_cons_pos _ htr
  | succ d ih =>
    intro k hd hk
    have hklt : k < m := by omega
    have hklen : k < all.length := by omega
    rw [List.drop_eq_getElem_cons hklen]
    have hkg : all.get? k = some all[k] := by
      rw [List.get?_eq_getElem?, List.getElem?_eq_getElem hklen]
    rw [findSentenceLoop_cons_neg _ (hno k all[k] hklt hkg)]
    exact ih (k + 1) (by omega) (by omega)

theorem findSentenceLoop_none_aux (all : List Sentence) (pos : Nat)
    (hno : ∀ j sj, all.get? j = some sj → ¬ sentTrigger all pos sj) :
    ∀ (d k : Nat), all.length - k = d → findSentenceLoop all pos (all.drop k) = none := by
  intro d
  induction d with
  | zero =>
    intro k hd
    rw [List.drop_eq_nil_of_le (by omega)]
    rfl
  | succ d ih =>
    intro k hd
    have hklen : k < all.length := by omega
    rw [List.drop_eq_getElem_cons hklen]
    have hkg : all.get? k = some all[k] := by
      rw [List.get?_eq_getElem?, List.getElem?_eq_getElem hklen]
    rw [findSentenceLoop_cons_neg _ (hno k all[k] hkg)]
    exact ih (k + 1) (by omega)

/-- Claim C8: the sentence-index lookup returns the index of the sentence
whose `[charStart, charEnd)` contains `pos`; for `pos` in inter-sentence
whitespace it returns the preceding sentence's index; for
`pos ≥ text.length` (with at least one sentence) it returns the last
index; and with no sentences it returns 0. -/
theorem c8_sentence_index_lookup (text : List Char) (pos : Nat) :
    (∀ (i : Nat) (sent : Sentence),
      (parseDocument text).sentences.get? i = some sent →
      sent.charStart ≤ pos → pos < sent.charEnd →
      getSentenceIndexAtPosition (parseDocument text) pos = i) ∧
    (∀ (i : Nat) (sent sent' : Sentence),
      (parseDocument text).sentences.get? i = some sent →
      (parseDocument text).sentences.get? (i + 1) = some sent' →
      sent.charEnd ≤ pos → pos < sent'.charStart →
      getSentenceIndexAtPosition (parseDocument text) pos = i) ∧
    (text.length ≤ pos → (parseDocument text).sentences ≠ [] →
      getSentenceIndexAtPosition (parseDocument text) pos =
        (parseDocument text).sentences.length - 1) ∧
    ((parseDocument text).sentences = [] →
      getSentenceIndexAtPosition (parseDocument text) pos = 0) := by
  have hord := parse_sentences_ord text
  set all := (parseDocument text).sentences with hall
  refine ⟨?_, ?_, ?_, ?_⟩
  · intro i sent hgi hstart hlt
    have hno : ∀ j sj, j < i → all.get? j = some sj → ¬ sentTrigger all pos sj := by
      intro j sj hji hgj htr
      have hpair := sentOrd_pair hord hji hgj hgi
      rcases htr with ⟨_, hc⟩ | ⟨_, hc⟩
      · omega
      · obtain ⟨g1, _, _, _⟩ := sentOrd_get hord hgj
        by_cases hji1 : j + 1 = i
        · rw [g1] at hc
          simp only [Nat.zero_add, hji1, hgi] at hc
          have := of_decide_eq_true hc
          omega
        · have hilen : i < all.length := by
            by_contra hcc
            rw [List.get?_eq_getElem?, List.getElem?_eq_none (by omega)] at hgi
            exact Option.noConfusion hgi
          have hj1len : j + 1 < all.length := by omega
          have hgj1 : all.get? (j + 1) = some all[j + 1] := by
            rw [List.get?_eq_getElem?, List.getElem?_eq_getElem hj1len]
          rw [g1] at hc
          simp only [Nat.zero_add, hgj1] at hc
          have hc2 := of_decide_eq_true hc
          have hpair2 := sentOrd_pair hord (show j + 1 < i by omega) hgj1 hgi
          obtain ⟨_, _, g3, _⟩ := sentOrd_get hord hgj1
          omega
    have hloop := findSentenceLoop_first_aux all pos i sent hgi (Or.inl ⟨hstart, hlt⟩) hno i 0
      (by omega) (by omega)
    rw [List.drop_zero] at hloop
    obtain ⟨g1, _, _, _⟩ := sentOrd_get hord hgi
    simp only [getSentenceIndexAtPosition, getSentenceAtPosition, ← hall, hloop]
    omega
  · intro i sent sent' hgi hgi' hend hlt
    obtain ⟨g1, _, g3, _⟩ := sentOrd_get hord hgi
    have htr : sentTrigger all pos sent := by
      right
      refine ⟨hend, ?_⟩
      rw [g1]
      simp only [Nat.zero_add, hgi']
      exact decide_eq_true hlt
    have hno : ∀ j sj, j < i → all.get? j = some sj → ¬ sentTrigger all pos sj := by
      intro j sj hji hgj htr'
      have hpair := sentOrd_pair hord hji hgj hgi
      rcases htr' with ⟨_, hc⟩ | ⟨_, hc⟩
      · omega
      · obtain ⟨f1, _, _, _⟩ := sentOrd_get hord hgj
        by_cases hji1 : j + 1 = i
        · rw [f1] at hc
          simp only [Nat.zero_add, hji1, hgi] at hc
          have := of_decide_eq_true hc
          omega
        · have hilen : i < all.length := by
            by_contra hcc
            rw [List.get?_eq_getElem?, List.getElem?_eq_none (by omega)] at hgi
            exact Option.noConfusion hgi
          have hj1len : j + 1 < all.length := by omega
          have hgj1 : all.get? (j + 1) = some all[j + 1] := by
            rw [List.get?_eq_getElem?, List.getElem?_eq_getElem hj1len]
          rw [f1] at hc
          simp only [Nat.zero_add, hgj1] at hc
          have hc2 := of_decide_eq_true hc
          have hpair2 := sentOrd_pair hord (show j + 1 < i by omega) hgj1 hgi
          obtain ⟨_, _, e3, _⟩ := sentOrd_get hord hgj1
          omega
    have hloop := findSentenceLoop_first_aux all pos i sent hgi htr hno i 0 (by omega) (by omega)
    rw [List.drop_zero] at hloop
    simp only [getSentenceIndexAtPosition, getSentenceAtPosition, ← hall, hloop]
    omega
  · intro hpos hne
    have hno : ∀ j sj, all.get? j = some sj → ¬ sentTrigger all pos sj := by
      intro j sj hgj htr
      obtain ⟨f1, _, f3, f4⟩ := sentOrd_get hord hgj
      rcases htr with ⟨_, hc⟩ | ⟨_, hc⟩
      · omega
      · rcases hg1 : all.get? (sj.index + 1) with _ | s2
        · rw [hg1] at hc
          exact Bool.noConfusion hc
        · rw [hg1] at hc
          have hc2 := of_decide_eq_true hc
          obtain ⟨_, _, e3, e4⟩ := sentOrd_get hord hg1
          omega
    have hloop := findSentenceLoop_none_aux all pos hno all.length 0 (by omega)
    rw [List.drop_zero] at hloop
    have hlen1 : all.length - 1 < all.length := by
      have : all.length ≠ 0 := fun hc => hne (List.length_eq_zero.mp hc)
      omega
    have hlast : all.getLast? = some all[all.length - 1] := by
      rw [List.getLast?_eq_getElem?, List.getElem?_eq_getElem hlen1]
    have hglast : all.get? (all.length - 1) = some all[all.length - 1] := by
      rw [List.get?_eq_getElem?, List.getElem?_eq_getElem hlen1]
    obtain ⟨f1, _, _, _⟩ := sentOrd_get hord hglast
    have hptext : (parseDocument text).text = text := rfl
    have hpos2 : (parseDocument text).text.length ≤ pos := by rw [hptext]; exact hpos
    simp only [getSentenceIndexAtPosition, getSentenceAtPosition, ← hall, hloop,
      if_pos (And.intro hpos2 hne), hlast]
    omega
  · intro hnil
    simp only [getSentenceIndexAtPosition, getSentenceAtPosition, ← hall, hnil,
      findSentenceLoop]
    simp

/-- Witness for Claim C8 on "Hi. Yo." (sentences `[0,3)` and `[4,7)`):
inside sentence 1, in the inter-sentence whitespace, past the end, and on
the empty document. -/
theorem c8_witness :
    getSentenceIndexAtPosition (parseDocument "Hi. Yo.".toList) 5 = 1 ∧
    getSentenceIndexAtPosition (parseDocument "Hi. Yo.".toList) 3 = 0 ∧
    getSentenceIndexAtPosition (parseDocument "Hi. Yo.".toList) 99 = 1 ∧
    getSentenceIndexAtPosition (parseDocument "".toList) 4 = 0 := by
  refine ⟨?_, ?_, ?_, ?_⟩
  · exact (c8_sentence_index_lookup "Hi. Yo.".toList 5).1 1 _ rfl (by decide) (by decide)
  · exact (c8_sentence_index_lookup "Hi. Yo.".toList 3).2.1 0 _ _ rfl rfl (by decide) (by decide)
  · exact ((c8_sentence_index_lookup "Hi. Yo.".toList 99).2.2.1 (by decide) (by decide)).trans
      (by decide)
  · exact (c8_sentence_index_lookup "".toList 4).2.2.2 (by decide)

/-- Full token invariant: positions chain, every token is a nonempty
uniform-class run, its type matches its class, and adjacent runs have
different classes (`prev` is the class of the preceding token). -/
def TokAlt (pos len : Nat) (prev : Option Bool) : List Token → Prop
  | [] => pos = len
  | t :: ts => ∃ b : Bool, t.charStart = pos ∧ t.charEnd = pos + t.text.length ∧
      t.text ≠ [] ∧ (∀ c ∈ t.text, isSepChar c = b) ∧
      t.type = (if b then TokType.separator else TokType.word) ∧
      prev ≠ some b ∧ TokAlt t.charEnd len (some b) ts

theorem all_eq_class {r : List Char} {cls : Bool} (hne : r ≠ [])
    (huni : ∀ c ∈ r, isSepChar c = cls) : r.all isSepChar = cls := by
  cases cls with
  | true => simp only [List.all_eq_true]; intro c hcm; exact huni c hcm
  | false =>
    rw [Bool.eq_false_iff]
    intro hall
    rw [List.all_eq_true] at hall
    obtain ⟨c, hcm⟩ := List.exists_mem_of_ne_nil r hne
    have := huni c hcm
    rw [hall c hcm] at this
    exact Bool.noConfusion this

theorem runsAux_tokens_alt (l : List Char) :
    ∀ (cls : Bool) (cur : List Char) (pos : Nat) (prev : Option Bool),
    cur ≠ [] → (∀ c ∈ cur, isSepChar c = cls) → prev ≠ some cls →
    TokAlt pos (pos + cur.length + l.length) prev (tokensFrom pos (runsAux cls cur l)) := by
  induction l with
  | nil =>
    intro cls cur pos prev hne huni hprev
    rw [runsAux, tokensFrom]
    have hrevne : cur.reverse ≠ [] := by simpa using hne
    have hrevuni : ∀ c ∈ cur.reverse, isSepChar c = cls := by
      intro c hcm; exact huni c (List.mem_reverse.mp hcm)
    refine ⟨cls, rfl, rfl, hrevne, hrevuni, ?_, hprev, ?_⟩
    · rw [all_eq_class hrevne hrevuni]
    · show pos + cur.reverse.length = pos + cur.length + 0
      simp
  | cons c rest ih =>
    intro cls cur pos prev hne huni hprev
    rw [runsAux]
    split
    · next hcls =>
      have h := ih cls (c :: cur) pos prev (by simp) (by
        intro x hx
        rcases List.mem_cons.mp hx with rfl | hx
        · exact hcls
        · exact huni x hx) hprev
      have harith : pos + (c :: cur).length + rest.length =
          pos + cur.length + (c :: rest).length := by simp; omega
      rw [harith] at h
      exact h
    · next hcls =>
      rw [tokensFrom]
      have hrevne : cur.reverse ≠ [] := by simpa using hne
      have hrevuni : ∀ x ∈ cur.reverse, isSepChar x = cls := by
        intro x hxm; exact huni x (List.mem_reverse.mp hxm)
      refine ⟨cls, rfl, rfl, hrevne, hrevuni, ?_, hprev, ?_⟩
      · rw [all_eq_class hrevne hrevuni]
      · have h := ih (isSepChar c) [c] (pos + cur.reverse.length) (some cls)
          (by simp) (by simp) (by
            intro hcon
            exact hcls (Option.some_injective _ hcon).symm)
        have harith : pos + cur.reverse.length + [c].length + rest.length =
            pos + cur.length + (c :: rest).length := by simp; omega
        rw [harith] at h
        exact h

theorem tokenize_alt (text : List Char) : TokAlt 0 text.length none (tokenize text) := by
  cases text with
  | nil => trivial
  | cons c rest =>
    have h := runsAux_tokens_alt rest (isSepChar c) [c] 0 none (by simp) (by simp) (by simp)
    have harith : 0 + [c].length + rest.length = (c :: rest).length := by
      simp
      omega
    rw [harith] at h
    exact h

/-- Strict separation of the word-token list: words are in order and any
two consecutive words are separated by at least one character. -/
def WordsOK (lb : Nat) : List Token → Prop
  | [] => True
  | w :: ws => lb ≤ w.charStart ∧ w.charStart < w.charEnd ∧ WordsOK (w.charEnd + 1) ws

theorem WordsOK_mono {lb : Nat} {l : List Token} (lb' : Nat) (h : WordsOK lb l)
    (hle : lb' ≤ lb) : WordsOK lb' l := by
  cases l with
  | nil => trivial
  | cons w ws =>
    obtain ⟨h1, h2, h3⟩ := h
    exact ⟨by omega, h2, h3⟩

theorem tokAlt_words : ∀ {ts : List Token} {pos len : Nat} {prev : Option Bool},
    TokAlt pos len prev ts →
    WordsOK (if prev = some false then pos + 1 else pos)
      (ts.filter (fun t => t.type = TokType.word)) := by
  intro ts
  induction ts with
  | nil => intro pos len prev _; simp [WordsOK]
  | cons t rest ih =>
    intro pos len prev h
    obtain ⟨b, h1, h2, h3, h4, h5, h6, h7⟩ := h
    have hlen : 0 < t.text.length := List.length_pos.mpr h3
    cases b with
    | true =>
      have hty : (fun t : Token => decide (t.type = TokType.word)) t = false := by
        simp [h5]
      rw [List.filter_cons_of_neg (by simpa using hty)]
      have hrest := ih h7
      rw [if_neg (by simp)] at hrest
      apply WordsOK_mono _ hrest
      split <;> omega
    | false =>
      have hty : (fun t : Token => decide (t.type = TokType.word)) t = true := by
        simp [h5]
      rw [List.filter_cons_of_pos (by simpa using hty)]
      refine ⟨?_, by omega, ?_⟩
      · rw [if_neg h6]
        omega
      · have hrest := ih h7
        rw [if_pos rfl] at hrest
        exact hrest

/-- The word list of a parse is strictly separated. -/
theorem parse_words_ok (text : List Char) : WordsOK 0 (parseDocument text).words := by
  have h := tokAlt_words (tokenize_alt text)
  rw [if_neg (by simp)] at h
  exact h

theorem wordsOK_get : ∀ {l : List Token} {lb i : Nat} {w : Token},
    WordsOK lb l → l.get? i = some w → lb ≤ w.charStart ∧ w.charStart < w.charEnd := by
  intro l
  induction l with
  | nil => intro lb i w _ hget; simp [List.get?] at hget
  | cons hd tl ih =>
    intro lb i w hok hget
    obtain ⟨h1, h2, h3⟩ := hok
    cases i with
    | zero =>
      have : hd = w := by simpa using hget
      subst this
      exact ⟨h1, h2⟩
    | succ j =>
      obtain ⟨g1, g2⟩ := ih h3 (by simpa using hget)
      exact ⟨by omega, g2⟩

theorem wordsOK_pair : ∀ {l : List Token} {lb i j : Nat} {wi wj : Token},
    WordsOK lb l → i < j → l.get? i = some wi → l.get? j = some wj →
    wi.charEnd < wj.charStart := by
  intro l
  induction l with
  | nil => intro lb i j wi wj _ _ hgi _; simp [List.get?] at hgi
  | cons hd tl ih =>
    intro lb i j wi wj hok hij hgi hgj
    obtain ⟨h1, h2, h3⟩ := hok
    cases i with
    | zero =>
      have : hd = wi := by simpa using hgi
      subst this
      obtain ⟨j', rfl⟩ : ∃ j', j = j' + 1 := ⟨j - 1, by omega⟩
      obtain ⟨g1, g2⟩ := wordsOK_get h3 (by simpa using hgj)
      omega
    | succ i' =>
      obtain ⟨j', rfl⟩ : ∃ j', j = j' + 1 := ⟨j - 1, by omega⟩
      refine ih h3 ?_ (by simpa using hgi) (by simpa using hgj)
      omega

theorem gwiLoop_cons_skip {pos : Nat} {w : Token} (rest : List Token) (k : Nat)
    (h1 : ¬(w.charStart ≤ pos ∧ pos ≤ w.charEnd)) (h2 : ¬ pos < w.charStart) :
    gwiLoop pos (w :: rest) k = gwiLoop pos rest (k + 1) := by
  rw [gwiLoop, if_neg h1, if_neg h2]

theorem gwiLoop_start_hits (ws : List Token) (lb : Nat) (hok : WordsOK lb ws)
    (i : Nat) (wi : Token) (hgi : ws.get? i = some wi) :
    ∀ (d k : Nat), i - k = d → k ≤ i → gwiLoop wi.charStart (ws.drop k) k = some i := by
  have hilen : i < ws.length := by
    by_contra hc
    rw [List.get?_eq_getElem?, List.getElem?_eq_none (by omega)] at hgi
    exact Option.noConfusion hgi
  intro d
  induction d with
  | zero =>
    intro k hd hk
    obtain rfl : i = k := by omega
    rw [List.drop_eq_getElem_cons hilen]
    have hwi : ws[i] = wi := by
      have h2 := hgi
      rw [List.get?_eq_getElem?, List.getElem?_eq_getElem hilen] at h2
      exact Option.some_injective _ h2
    rw [hwi, gwiLoop]
    have hbound := wordsOK_get hok hgi
    rw [if_pos ⟨le_refl _, by omega⟩]
  | succ d ih =>
    intro k hd hk
    have hklt : k < i := by omega
    have hklen : k < ws.length := by omega
    have hkg : ws.get? k = some ws[k] := by
      rw [List.get?_eq_getElem?, List.getElem?_eq_getElem hklen]
    have hpair := wordsOK_pair hok hklt hkg hgi
    have hbk := wordsOK_get hok hkg
    rw [List.drop_eq_getElem_cons hklen,
      gwiLoop_cons_skip _ _ (by omega) (by omega)]
    exact ih (k + 1) (by omega) (by omega)

/-- Claim C10: starting a leftward word selection with no prior selection
and `cursor ≠ 0`: if the cursor sits exactly at the `charStart` of word
`i` with `i > 0`, the selection anchors on word `i - 1`; otherwise it
anchors on the word index at the cursor position.  Both anchors have
`start = end` and direction left. -/
theorem c10_leftward_word_selection_start (text : List Char) (cursor : Nat)
    (hc : cursor ≠ 0) :
    (∀ (i : Nat) (w : Token), (parseDocument text).words.get? i = some w → 0 < i →
      cursor = w.charStart →
      wordSelLeft (parseDocument text) cursor none =
        some ⟨((i - 1 : Nat) : Int), ((i - 1 : Nat) : Int), Dir.left⟩) ∧
    ((∀ (i : Nat) (w : Token), (parseDocument text).words.get? i = some w → 0 < i →
        cursor ≠ w.charStart) →
      wordSelLeft (parseDocument text) cursor none =
        some ⟨(getWordIndexAtPosition (parseDocument text) cursor : Int),
              (getWordIndexAtPosition (parseDocument text) cursor : Int), Dir.left⟩) := by
  constructor
  · intro i w hgi hipos hcs
    have hloop := gwiLoop_start_hits (parseDocument text).words 0 (parse_words_ok text)
      i w hgi i 0 (by omega) (by omega)
    rw [List.drop_zero, ← hcs] at hloop
    have hgw : getWordIndexAtPosition (parseDocument text) cursor = i := by
      rw [getWordIndexAtPosition, hloop]
    rw [wordSelLeft, if_neg hc, hgw, hgi]
    show some (Sel.mk (if cursor = w.charStart ∧ 0 < i then (i : Int) - 1 else (i : Int))
        (if cursor = w.charStart ∧ 0 < i then (i : Int) - 1 else (i : Int)) Dir.left) =
      some (Sel.mk ((i - 1 : Nat) : Int) ((i - 1 : Nat) : Int) Dir.left)
    rw [if_pos ⟨hcs, hipos⟩]
    have hcast : ((i : Int)) - 1 = ((i - 1 : Nat) : Int) := by omega
    rw [hcast]
  · intro hno
    rw [wordSelLeft, if_neg hc]
    rcases hg : (parseDocument text).words.get?
        (getWordIndexAtPosition (parseDocument text) cursor) with _ | w
    · rfl
    · by_cases hidx : 0 < getWordIndexAtPosition (parseDocument text) cursor
      · show some (Sel.mk
            (if cursor = w.charStart ∧ 0 < getWordIndexAtPosition (parseDocument text) cursor then
              ((getWordIndexAtPosition (parseDocument text) cursor : Int)) - 1
            else (getWordIndexAtPosition (parseDocument text) cursor : Int))
            (if cursor = w.charStart ∧ 0 < getWordIndexAtPosition (parseDocument text) cursor then
              ((getWordIndexAtPosition (parseDocument text) cursor : Int)) - 1
            else (getWordIndexAtPosition (parseDocument text) cursor : Int)) Dir.left) = _
        rw [if_neg (fun hand => hno _ w hg hidx hand.1)]
      · show some (Sel.mk
            (if cursor = w.charStart ∧ 0 < getWordIndexAtPosition (parseDocument text) cursor then
              ((getWordIndexAtPosition (parseDocument text) cursor : Int)) - 1
            else (getWordIndexAtPosition (parseDocument text) cursor : Int))
            (if cursor = w.charStart ∧ 0 < getWordIndexAtPosition (parseDocument text) cursor then
              ((getWordIndexAtPosition (parseDocument text) cursor : Int)) - 1
            else (getWordIndexAtPosition (parseDocument text) cursor : Int)) Dir.left) = _
        rw [if_neg (fun hand => hidx hand.2)]

/-- Witness for Claim C10 on "ab cd" (words `[0,2)` and `[3,5)`): cursor 3
sits at the start of word 1, so the anchor is word 0; cursor 4 is inside
word 1, so the anchor is word 1. -/
theorem c10_witness :
    wordSelLeft (parseDocument "ab cd".toList) 3 none = some ⟨0, 0, Dir.left⟩ ∧
    wordSelLeft (parseDocument "ab cd".toList) 4 none = some ⟨1, 1, Dir.left⟩ := by
  constructor
  · have h := (c10_leftward_word_selection_start "ab cd".toList 3 (by decide)).1 1
    exact (h _ rfl (by decide) (by decide)).trans (by decide)
  · have h := (c10_leftward_word_selection_start "ab cd".toList 4 (by decide)).2
    refine (h ?_).trans (by decide)
    intro i w hg hi hcs
    have hmap : ((parseDocument "ab cd".toList).words.get? i).map Token.charStart =
        some w.charStart := by rw [hg]; rfl
    have hlt : i < 2 := by
      by_contra hcon
      rw [List.get?_eq_getElem?, List.getElem?_eq_none (by
        have hL : (parseDocument "ab cd".toList).words.length = 2 := by decide
        omega)] at hg
      exact Option.noConfusion hg
    interval_cases i
    rw [show ((parseDocument "ab cd".toList).words.get? 1).map Token.charStart =
        some 3 from by decide] at hmap
    have := Option.some_injective _ hmap
    omega

theorem doUndo_empty {s : EditorState} (h : s.undoStack = []) : doUndo s = s := by
  rw [doUndo, h]
  rfl

theorem doRedo_empty {s : EditorState} (h : s.redoStack = []) : doRedo s = s := by
  rw [doRedo, h]
  rfl

theorem doUndo_eq {s : EditorState} {U : List HistoryState} {V : HistoryState}
    (h : s.undoStack = U ++ [V]) :
    (doUndo s).undoStack = U ∧ (doUndo s).redoStack = s.redoStack ++ [snapshot s] ∧
    snapshot (doUndo s) = V := by
  rw [doUndo, h, List.getLast?_concat]
  exact ⟨by simp [restoreState], rfl, rfl⟩

theorem doRedo_eq {s : EditorState} {R : List HistoryState} {V : HistoryState}
    (h : s.redoStack = R ++ [V]) :
    (doRedo s).redoStack = R ∧ snapshot (doRedo s) = V := by
  rw [doRedo, h, List.getLast?_concat]
  exact ⟨by simp [restoreState], rfl⟩

theorem doUndo_iterate_empty {s : EditorState} (h : s.undoStack = []) :
    ∀ n : Nat, doUndo^[n] s = s := by
  intro n
  induction n with
  | zero => rfl
  | succ n ih => rw [Function.iterate_succ_apply, doUndo_empty h, ih]

theorem doRedo_iterate_empty {s : EditorState} (h : s.redoStack = []) :
    ∀ n : Nat, doRedo^[n] s = s := by
  intro n
  induction n with
  | zero => rfl
  | succ n ih => rw [Function.iterate_succ_apply, doRedo_empty h, ih]

theorem undoAll (U : List HistoryState) : ∀ (s : EditorState), s.undoStack = U →
    (doUndo^[U.length] s).undoStack = [] ∧
    (doUndo^[U.length] s).redoStack = s.redoStack ++ (snapshot s :: U.reverse).dropLast ∧
    snapshot (doUndo^[U.length] s) = U.head?.getD (snapshot s) := by
  induction U using List.reverseRecOn with
  | nil =>
    intro s h
    refine ⟨by simpa using h, by simp, by simp⟩
  | append_singleton U V ih =>
    intro s h
    obtain ⟨e1, e2, e3⟩ := doUndo_eq h
    have hlen : (U ++ [V]).length = U.length + 1 := by simp
    rw [hlen, Function.iterate_succ_apply]
    obtain ⟨g1, g2, g3⟩ := ih (doUndo s) e1
    refine ⟨g1, ?_, ?_⟩
    · rw [g2, e2, e3]
      cases U with
      | nil => simp
      | cons u U' =>
        have hsplit : (snapshot s :: ((u :: U') ++ [V]).reverse) =
            (snapshot s :: V :: (u :: U').reverse) := by simp
        have h2 : (snapshot s :: V :: (u :: U').reverse).dropLast =
            snapshot s :: (V :: (u :: U').reverse).dropLast :=
          List.dropLast_cons_of_ne_nil (by simp)
        rw [hsplit, h2]
        simp
    · rw [g3, e3]
      cases U with
      | nil => simp
      | cons u U' => simp

theorem redoAll (R : List HistoryState) : ∀ (s : EditorState), s.redoStack = R →
    (doRedo^[R.length] s).redoStack = [] ∧
    snapshot (doRedo^[R.length] s) = R.head?.getD (snapshot s) := by
  induction R using List.reverseRecOn with
  | nil =>
    intro s h
    exact ⟨by simpa using h, by simp⟩
  | append_singleton R V ih =>
    intro s h
    obtain ⟨e1, e2⟩ := doRedo_eq h
    have hlen : (R ++ [V]).length = R.length + 1 := by simp
    rw [hlen, Function.iterate_succ_apply]
    obtain ⟨g1, g2⟩ := ih (doRedo s) e1
    refine ⟨g1, ?_⟩
    rw [g2, e2]
    cases R with
    | nil => simp
    | cons u R' => simp

theorem commitTogglePhase_undoStack (now : Nat) (ast : DocumentAST) (s : EditorState) :
    (commitTogglePhase now ast s).undoStack = jsTakeLast 99 s.undoStack ++ [snapshot s] := by
  have h : (saveHistory true now s).undoStack = jsTakeLast 99 s.undoStack ++ [snapshot s] :=
    saveHistory_force_undoStack now s
  simp only [commitTogglePhase]
  split
  · exact h
  · exact h

theorem commitTogglePhase_redoStack (now : Nat) (ast : DocumentAST) (s : EditorState) :
    (commitTogglePhase now ast s).redoStack = [] := by
  simp only [commitTogglePhase]
  split
  · rfl
  · rfl

theorem newlinePhase_undoStack (now : Nat) (s : EditorState) :
    (newlinePhase now s).undoStack = jsTakeLast 99 s.undoStack ++ [snapshot s] :=
  saveHistory_force_undoStack now s

theorem newlinePhase_redoStack (now : Nat) (s : EditorState) :
    (newlinePhase now s).redoStack = [] := rfl

/-- Any Backspace or Enter event pushes exactly one snapshot of the
pre-state and clears the redo stack. -/
theorem forced_step_stacks (now : Nat) (ev : KeyEvent) (s : EditorState)
    (hk : ev.key = "Backspace" ∨ ev.key = "Enter") :
    (handleKey now ev s).undoStack = jsTakeLast 99 s.undoStack ++ [snapshot s] ∧
    (handleKey now ev s).redoStack = [] := by
  rcases hk with hk | hk
  · rw [handleKey_backspace now ev s hk]
    exact ⟨backspacePhase_undoStack now ev (parseDocument s.text) s,
      backspacePhase_redoStack now ev (parseDocument s.text) s⟩
  · cases hm : ev.metaKey with
    | false =>
      rw [handleKey_enter_plain now ev s hk hm]
      exact ⟨newlinePhase_undoStack now s, newlinePhase_redoStack now s⟩
    | true =>
      rw [handleKey_enter_meta now ev s hk hm]
      exact ⟨commitTogglePhase_undoStack now (parseDocument s.text) s,
        commitTogglePhase_redoStack now (parseDocument s.text) s⟩

/-- The first snapshot that undo can reach: the bottom of the undo stack,
or the live fields if the stack is empty. -/
def baseOf (s : EditorState) : HistoryState :=
  s.undoStack.head?.getD (snapshot s)

theorem applyForced_props (es : List (Nat × KeyEvent)) : ∀ (S0 : EditorState),
    (∀ p ∈ es, p.2.key = "Backspace" ∨ p.2.key = "Enter") →
    S0.undoStack.length + es.length ≤ 100 → S0.redoStack = [] →
    (applyEvents es S0).undoStack.length ≤ S0.undoStack.length + es.length ∧
    baseOf (applyEvents es S0) = baseOf S0 ∧
    (applyEvents es S0).redoStack = [] := by
  induction es with
  | nil => intro S0 _ _ hr; exact ⟨by simp [applyEvents], rfl, hr⟩
  | cons p es' ih =>
    intro S0 hforced hbound hr
    have happ : applyEvents (p :: es') S0 = applyEvents es' (handleKey p.1 p.2 S0) := rfl
    obtain ⟨f1, f2⟩ := forced_step_stacks p.1 p.2 S0 (hforced p (by simp))
    have hlen0 : S0.undoStack.length ≤ 99 := by
      have := hbound
      simp only [List.length_cons] at this
      omega
    have htake : jsTakeLast 99 S0.undoStack = S0.undoStack := by
      have : S0.undoStack.length - 99 = 0 := by omega
      simp [jsTakeLast, this]
    rw [htake] at f1
    have hstep1 : (handleKey p.1 p.2 S0).undoStack.length = S0.undoStack.length + 1 := by
      rw [f1]; simp
    have hbase : baseOf (handleKey p.1 p.2 S0) = baseOf S0 := by
      rw [baseOf, baseOf, f1]
      cases hu : S0.undoStack with
      | nil => simp [hu]
      | cons u U' => simp [hu]
    have hbound' : (handleKey p.1 p.2 S0).undoStack.length + es'.length ≤ 100 := by
      rw [hstep1]
      simp only [List.length_cons] at hbound
      omega
    obtain ⟨g1, g2, g3⟩ := ih (handleKey p.1 p.2 S0)
      (fun q hq => hforced q (by simp [hq])) hbound' f2
    rw [happ]
    refine ⟨?_, ?_, g3⟩
    · rw [hstep1] at g1
      simp only [List.length_cons]
      omega
    · rw [g2, hbase]


/-- C1 (amended): starting from any state with empty undo and redo stacks, after a
sequence of at most 100 forced-snapshot operations (Backspace or Enter key events,
with any modifiers), invoking undo once per operation restores the initial snapshot
(text, cursor, ghost ranges, committed set, selections), and then invoking redo once
per operation restores the snapshot of the state reached after the last operation. -/
theorem c1_forced_undo_redo_roundtrip (es : List (Nat × KeyEvent)) (S0 : EditorState)
    (hforced : ∀ p ∈ es, p.2.key = "Backspace" ∨ p.2.key = "Enter")
    (h0u : S0.undoStack = []) (h0r : S0.redoStack = [])
    (hn : es.length ≤ 100) :
    snapshot ((fun st => handleKey 0 undoEvent st)^[es.length] (applyEvents es S0)) =
      snapshot S0 ∧
    snapshot ((fun st => handleKey 0 redoEvent st)^[es.length]
        ((fun st => handleKey 0 undoEvent st)^[es.length] (applyEvents es S0))) =
      snapshot (applyEvents es S0) := by
  have hun : (fun st => handleKey 0 undoEvent st) = doUndo :=
    funext (fun st => handleKey_undo 0 undoEvent st (by decide))
  have hre : (fun st => handleKey 0 redoEvent st) = doRedo :=
    funext (fun st => handleKey_redo 0 redoEvent st (by decide))
  rw [hun, hre]
  obtain ⟨p1, p2, p3⟩ := applyForced_props es S0 hforced (by rw [h0u]; simpa using hn) h0r
  set sN := applyEvents es S0 with hsN
  set U := sN.undoStack with hU
  set m := U.length with hm
  have hmn : m ≤ es.length := by
    rw [h0u] at p1
    simpa using p1
  obtain ⟨q1, q2, q3⟩ := undoAll U sN hU.symm

  have hbase : U.head?.getD (snapshot sN) = snapshot S0 := by
    have hp := p2
    rw [baseOf, baseOf, h0u] at hp
    simpa using hp
  have hdecomp : doUndo^[es.length] sN = doUndo^[es.length - m] (doUndo^[m] sN) := by
    conv_lhs => rw [show es.length = (es.length - m) + m from by omega]
    rw [Function.iterate_add_apply]
  have hz : doUndo^[es.length - m] (doUndo^[m] sN) = doUndo^[m] sN :=
    doUndo_iterate_empty q1 _
  constructor
  · rw [hdecomp, hz, q3, hbase]
  · rw [hdecomp, hz]
    set z := doUndo^[m] sN with hzdef
    have hzredo : z.redoStack = (snapshot sN :: U.reverse).dropLast := by
      rw [q2, p3]
      simp
    have hzlen : z.redoStack.length = m := by
      rw [hzredo]
      simp
    obtain ⟨r1, r2⟩ := redoAll z.redoStack z rfl
    rw [hzlen] at r1 r2
    have hfinal : z.redoStack.head?.getD (snapshot z) = snapshot sN := by
      rw [hzredo]
      cases hUc : U with
      | nil =>
        have hzz : snapshot z = snapshot sN := by
          rw [q3, hUc]
          rfl
        simp [hUc, hzz]
      | cons u U' =>
        rw [List.dropLast_cons_of_ne_nil (by simp)]
        simp
    have hdecom2 : doRedo^[es.length] z = doRedo^[es.length - m] (doRedo^[m] z) := by
      conv_lhs => rw [show es.length = (es.length - m) + m from by omega]
      rw [Function.iterate_add_apply]
    rw [hdecom2, doRedo_iterate_empty r1, r2, hfinal]

theorem c1_witness :
    snapshot ((fun st => handleKey 0 undoEvent st)^[
        ([(0, plainEv "Backspace"), (600, plainEv "Enter")] : List (Nat × KeyEvent)).length]
      (applyEvents [(0, plainEv "Backspace"), (600, plainEv "Enter")]
        (initialState "ab.".toList ∅))) =
      snapshot (initialState "ab.".toList ∅) ∧
    snapshot ((fun st => handleKey 0 redoEvent st)^[
        ([(0, plainEv "Backspace"), (600, plainEv "Enter")] : List (Nat × KeyEvent)).length]
      ((fun st => handleKey 0 undoEvent st)^[
        ([(0, plainEv "Backspace"), (600, plainEv "Enter")] : List (Nat × KeyEvent)).length]
      (applyEvents [(0, plainEv "Backspace"), (600, plainEv "Enter")]
        (initialState "ab.".toList ∅)))) =
      snapshot (applyEvents [(0, plainEv "Backspace"), (600, plainEv "Enter")]
        (initialState "ab.".toList ∅)) :=
  c1_forced_undo_redo_roundtrip [(0, plainEv "Backspace"), (600, plainEv "Enter")] (initialState "ab.".toList ∅)
    (by decide) rfl rfl (by decide)

theorem listGetInt_isSome_iff {α : Type} (l : List α) (i : ℤ) :
    (listGetInt l i).isSome = true ↔ 0 ≤ i ∧ i < (l.length : ℤ) := by
  unfold listGetInt
  split
  · rw [List.get?_eq_getElem?]
    simp only [Option.isSome_iff_exists, List.getElem?_eq_some]
    constructor
    · rintro ⟨a, h, _⟩
      omega
    · intro h
      exact ⟨l.get ⟨i.toNat, by omega⟩, by omega, rfl⟩
  · simp only [Option.isSome_none, Bool.false_eq_true, false_iff]
    omega

theorem listGetInt_some {α : Type} {l : List α} {i : ℤ} (h0 : 0 ≤ i)
    (h1 : i < (l.length : ℤ)) : ∃ x, listGetInt l i = some x :=
  Option.isSome_iff_exists.mp ((listGetInt_isSome_iff l i).mpr ⟨h0, h1⟩)

/-- The committed-index remap the reorder-up branch images over the
committed set: the selected block shifts up one, the former neighbor
lands at the block's old upper end. -/
def reorderRemapUp (minIdx maxIdx idx : ℤ) : ℤ :=
  if minIdx ≤ idx ∧ idx ≤ maxIdx then idx - 1
  else if idx = minIdx - 1 then maxIdx
  else idx

/-- The committed-index remap of the reorder-down branch. -/
def reorderRemapDown (minIdx maxIdx idx : ℤ) : ℤ :=
  if minIdx ≤ idx ∧ idx ≤ maxIdx then idx + 1
  else if idx = maxIdx + 1 then minIdx
  else idx

/-- Text of the parsed sentence addressed by an integer index (empty when
the index addresses no sentence). -/
def sentenceTextAt (text : List Char) (i : ℤ) : List Char :=
  match listGetInt (parseDocument text).sentences i with
  | some sent => sliceN text sent.charStart sent.charEnd
  | none => []

theorem committedTexts_remap (text newText : List Char) (committed : Finset ℤ)
    (remap : ℤ → ℤ) (L : ℕ)
    (hL : (parseDocument text).sentences.length = L)
    (hLnew : (parseDocument newText).sentences.length = L)
    (hrange : ∀ i ∈ committed, 0 ≤ i ∧ i < (L : ℤ))
    (hremap : ∀ i ∈ committed, 0 ≤ remap i ∧ remap i < (L : ℤ))
    (htext : ∀ i ∈ committed,
      sentenceTextAt newText (remap i) = sentenceTextAt text i) :
    committedTexts newText (committed.image remap) =
      committedTexts text committed := by
  have hfnew : (committed.image remap).filter
      (fun i => (listGetInt (parseDocument newText).sentences i).isSome = true) =
      committed.image remap := by
    apply Finset.filter_true_of_mem
    intro x hx
    obtain ⟨i, hi, rfl⟩ := Finset.mem_image.mp hx
    exact (listGetInt_isSome_iff _ _).mpr
      ⟨(hremap i hi).1, by rw [hLnew]; exact (hremap i hi).2⟩
  have hfold : committed.filter
      (fun i => (listGetInt (parseDocument text).sentences i).isSome = true) =
      committed := by
    apply Finset.filter_true_of_mem
    intro i hi
    exact (listGetInt_isSome_iff _ _).mpr
      ⟨(hrange i hi).1, by rw [hL]; exact (hrange i hi).2⟩
  have h1 : committedTexts newText (committed.image remap) =
      ((committed.image remap).filter
        (fun i => (listGetInt (parseDocument newText).sentences i).isSome = true)).image
        (sentenceTextAt newText) := rfl
  have h2 : committedTexts text committed =
      (committed.filter
        (fun i => (listGetInt (parseDocument text).sentences i).isSome = true)).image
        (sentenceTextAt text) := rfl
  rw [h1, h2, hfnew, hfold, Finset.image_image]
  exact Finset.image_congr (fun i hi => htext i hi)

theorem arrowUpPhase_reorder (now : Nat) (ev : KeyEvent) (ast : DocumentAST)
    (s : EditorState) (sel : Sel)
    (hk : ev.key = "ArrowUp") (hsel : s.sentenceSelection = some sel)
    (hmin : (0:ℤ) < min sel.start sel.stop)
    (hmax : max sel.start sel.stop < (ast.sentences.length : ℤ)) :
    (arrowUpPhase now ev ast s).committedSentences =
      s.committedSentences.image
        (reorderRemapUp (min sel.start sel.stop) (max sel.start sel.stop)) := by
  have hminmax : min sel.start sel.stop ≤ max sel.start sel.stop := min_le_max
  obtain ⟨p, hp⟩ := listGetInt_some (l := ast.sentences)
    (i := min sel.start sel.stop - 1) (by omega) (by omega)
  obtain ⟨f, hf⟩ := listGetInt_some (l := ast.sentences)
    (i := min sel.start sel.stop) (by omega) (by omega)
  obtain ⟨g, hg⟩ := listGetInt_some (l := ast.sentences)
    (i := max sel.start sel.stop) (by omega) (by omega)
  simp only [arrowUpPhase, hk, hsel, if_pos hmin, hp, hf, hg, if_true]
  rw [saveHistory_committedSentences]
  rfl

theorem arrowDownPhase_reorder (now : Nat) (ev : KeyEvent) (ast : DocumentAST)
    (s : EditorState) (sel : Sel)
    (hk : ev.key = "ArrowDown") (hsel : s.sentenceSelection = some sel)
    (hmin : (0:ℤ) ≤ min sel.start sel.stop)
    (hmax : max sel.start sel.stop < (ast.sentences.length : ℤ) - 1) :
    (arrowDownPhase now ev ast s).committedSentences =
      s.committedSentences.image
        (reorderRemapDown (min sel.start sel.stop) (max sel.start sel.stop)) := by
  have hminmax : min sel.start sel.stop ≤ max sel.start sel.stop := min_le_max
  obtain ⟨f, hf⟩ := listGetInt_some (l := ast.sentences)
    (i := min sel.start sel.stop) (by omega) (by omega)
  obtain ⟨g, hg⟩ := listGetInt_some (l := ast.sentences)
    (i := max sel.start sel.stop) (by omega) (by omega)
  obtain ⟨nx, hnx⟩ := listGetInt_some (l := ast.sentences)
    (i := max sel.start sel.stop + 1) (by omega) (by omega)
  simp only [arrowDownPhase, hk, hsel, if_pos hmax, hf, hg, hnx, if_true]
  rw [saveHistory_committedSentences]
  rfl

/-- C3 (amended): for a buffer with an active sentence selection and a
neighbor in the requested direction, a reorder-up (ArrowUp) or
reorder-down (ArrowDown) key event preserves the set of committed
sentence texts, provided the reordered buffer re-parses into the same
number of sentences with the sentence texts permuted by the block-swap
index remap.  (Without the proviso the claim fails: a reordered buffer
can merge sentences, leaving a committed index addressing no sentence.) -/
theorem c3_reorder_preserves_committed_texts (now : Nat) (ev : KeyEvent) (s : EditorState) (sel : Sel)
    (hsel : s.sentenceSelection = some sel)
    (hcomm : ∀ i ∈ s.committedSentences,
      0 ≤ i ∧ i < ((parseDocument s.text).sentences.length : ℤ)) :
    (ev.key = "ArrowUp" →
      (0:ℤ) < min sel.start sel.stop →
      max sel.start sel.stop < ((parseDocument s.text).sentences.length : ℤ) →
      (parseDocument (handleKey now ev s).text).sentences.length =
        (parseDocument s.text).sentences.length →
      (∀ i ∈ s.committedSentences,
        sentenceTextAt (handleKey now ev s).text
            (reorderRemapUp (min sel.start sel.stop) (max sel.start sel.stop) i) =
          sentenceTextAt s.text i) →
      committedTexts (handleKey now ev s).text (handleKey now ev s).committedSentences =
        committedTexts s.text s.committedSentences) ∧
    (ev.key = "ArrowDown" →
      (0:ℤ) ≤ min sel.start sel.stop →
      max sel.start sel.stop < ((parseDocument s.text).sentences.length : ℤ) - 1 →
      (parseDocument (handleKey now ev s).text).sentences.length =
        (parseDocument s.text).sentences.length →
      (∀ i ∈ s.committedSentences,
        sentenceTextAt (handleKey now ev s).text
            (reorderRemapDown (min sel.start sel.stop) (max sel.start sel.stop) i) =
          sentenceTextAt s.text i) →
      committedTexts (handleKey now ev s).text (handleKey now ev s).committedSentences =
        committedTexts s.text s.committedSentences) := by
  have hminmax : min sel.start sel.stop ≤ max sel.start sel.stop := min_le_max
  constructor
  · intro hk hmin hmax hlen htext
    have hHK : handleKey now ev s = arrowUpPhase now ev (parseDocument s.text) s :=
      handleKey_arrowUp now ev s hk
    rw [hHK] at hlen htext ⊢
    rw [arrowUpPhase_reorder now ev (parseDocument s.text) s sel hk hsel hmin hmax]
    apply committedTexts_remap s.text _ s.committedSentences _
      (parseDocument s.text).sentences.length rfl hlen hcomm _ htext
    intro i hi
    have hir := hcomm i hi
    unfold reorderRemapUp
    split
    · omega
    · split <;> omega
  · intro hk hmin hmax hlen htext
    have hHK : handleKey now ev s = arrowDownPhase now ev (parseDocument s.text) s := by
      rw [handleKey_arrowDown now ev s hk,
        arrowUpPhase_skip now ev (parseDocument s.text) s (by rw [hk]; decide)]
    rw [hHK] at hlen htext ⊢
    rw [arrowDownPhase_reorder now ev (parseDocument s.text) s sel hk hsel hmin hmax]
    apply committedTexts_remap s.text _ s.committedSentences _
      (parseDocument s.text).sentences.length rfl hlen hcomm _ htext
    intro i hi
    have hir := hcomm i hi
    unfold reorderRemapDown
    split
    · omega
    · split <;> omega

def c3WitnessState : EditorState :=
  { text := "A. B. C.".toList, cursorPosition := 0,
    wordSelection := none, sentenceSelection := some ⟨1, 1, Dir.right⟩,
    committedSentences := {1}, ghostRanges := [],
    undoStack := [], redoStack := [], lastEditTime := 0 }

theorem c3_witness :
    committedTexts (handleKey 0 (plainEv "ArrowUp") c3WitnessState).text
        (handleKey 0 (plainEv "ArrowUp") c3WitnessState).committedSentences =
      committedTexts c3WitnessState.text c3WitnessState.committedSentences :=
  (c3_reorder_preserves_committed_texts 0 (plainEv "ArrowUp") c3WitnessState ⟨1, 1, Dir.right⟩ rfl
      (by decide)).1 rfl (by decide) (by decide) (by decide) (by decide)
